import Mathlib

/-!
Shallow embedding of the tinyneuron StyleGAN generator links
(stylegan/links/generator.py) and of the image color conversion utility
(utilities/image.py), together with a verification of the specification
claims about them.

A rank-n tensor is embedded as a shape tuple plus a total data function on
natural-number indices; two tensors are considered the same observable value
when their shapes agree and their data agree on every in-range index.  Each
embedded operation performs exactly the index arithmetic of the
numpy/chainer call it translates: row-major reshape, edge-replication
padding, grouped 2-d convolution with stride 1, bilinear resizing with
corner alignment disabled.

The classes EqualizedLinear, LeakyRelu and GaussianDistribution live in
stylegan/links/common.py, which is not part of the sources; they are
modelled from the specification where marked.  The Gaussian noise draw is
modelled as an explicit injectable noise argument (spec section 9).
-/

section Tensors

variable {α : Type*}

/-- Rank-1 tensor: a length and a total data function. -/
structure Tensor1 (α : Type*) where
  shape : ℕ
  data : ℕ → α

/-- Rank-2 tensor. -/
structure Tensor2 (α : Type*) where
  shape : ℕ × ℕ
  data : ℕ → ℕ → α

/-- Rank-3 tensor. -/
structure Tensor3 (α : Type*) where
  shape : ℕ × ℕ × ℕ
  data : ℕ → ℕ → ℕ → α

/-- Rank-4 tensor (batch, channels, height, width). -/
structure Tensor4 (α : Type*) where
  shape : ℕ × ℕ × ℕ × ℕ
  data : ℕ → ℕ → ℕ → ℕ → α

/-- Rank-5 tensor (batch, out-channels, in-channels, kh, kw). -/
structure Tensor5 (α : Type*) where
  shape : ℕ × ℕ × ℕ × ℕ × ℕ
  data : ℕ → ℕ → ℕ → ℕ → ℕ → α

theorem Tensor4.ext_data4 {x y : Tensor4 α} (hs : x.shape = y.shape)
    (hd : ∀ b c i j, x.data b c i j = y.data b c i j) : x = y := by
  cases x
  cases y
  simp only at hs hd
  subst hs
  congr 1
  funext b c i j
  exact hd b c i j

theorem Tensor2.ext_data2 {x y : Tensor2 α} (hs : x.shape = y.shape)
    (hd : ∀ n i, x.data n i = y.data n i) : x = y := by
  cases x
  cases y
  simp only at hs hd
  subst hs
  congr 1
  funext n i
  exact hd n i

/-- Observable equality of rank-4 tensors: equal shapes and equal data on
every in-range index. -/
def Tensor4.EqOn (x y : Tensor4 α) : Prop :=
  x.shape = y.shape ∧
    ∀ b c i j, b < x.shape.1 → c < x.shape.2.1 → i < x.shape.2.2.1 →
      j < x.shape.2.2.2 → x.data b c i j = y.data b c i j

theorem Tensor4.EqOn.refl (x : Tensor4 α) : x.EqOn x :=
  ⟨rfl, fun _ _ _ _ _ _ _ _ => rfl⟩

theorem Tensor4.EqOn.of_eq {x y : Tensor4 α} (h : x = y) : x.EqOn y := by
  subst h; exact Tensor4.EqOn.refl x

theorem Tensor4.EqOn.trans {x y z : Tensor4 α} (h1 : x.EqOn y) (h2 : y.EqOn z) :
    x.EqOn z := by
  refine ⟨h1.1.trans h2.1, fun b c i j hb hc hi hj => ?_⟩
  refine (h1.2 b c i j hb hc hi hj).trans (h2.2 b c i j ?_ ?_ ?_ ?_) <;>
    rw [← h1.1] <;> assumption

/-- Concatenation of two rank-4 tensors along the batch axis. -/
def Tensor4.concatB (x y : Tensor4 α) : Tensor4 α :=
  ⟨(x.shape.1 + y.shape.1, x.shape.2.1, x.shape.2.2.1, x.shape.2.2.2),
   fun b c i j => if b < x.shape.1 then x.data b c i j else y.data (b - x.shape.1) c i j⟩

/-- Concatenation of two rank-2 tensors along the batch (first) axis. -/
def Tensor2.concatB (x y : Tensor2 α) : Tensor2 α :=
  ⟨(x.shape.1 + y.shape.1, x.shape.2),
   fun n i => if n < x.shape.1 then x.data n i else y.data (n - x.shape.1) i⟩

theorem Tensor4.concatB_shape (x y : Tensor4 α) :
    (x.concatB y).shape = (x.shape.1 + y.shape.1, x.shape.2.1, x.shape.2.2.1,
      x.shape.2.2.2) := rfl

/-- The all-zero rank-4 tensor of a given shape (used to pin the noise draw). -/
def zeros4 [Zero α] (s : ℕ × ℕ × ℕ × ℕ) : Tensor4 α := ⟨s, fun _ _ _ _ => 0⟩

/-- Elementwise sum of two rank-4 tensors (numpy broadcasting-free case:
equal shapes; the shape is taken from the left operand). -/
def Tensor4.add [Add α] (x y : Tensor4 α) : Tensor4 α :=
  ⟨x.shape, fun b c i j => x.data b c i j + y.data b c i j⟩

end Tensors

section IndexArithmetic

/-- Row-major linear index of a 4-component index in a 4-component shape. -/
def lin4 (a b c d : ℕ) (s : ℕ × ℕ × ℕ × ℕ) : ℕ :=
  ((a * s.2.1 + b) * s.2.2.1 + c) * s.2.2.2 + d

/-- Row-major delinearization of a linear index into a 4-component shape. -/
def delin4 (n : ℕ) (s : ℕ × ℕ × ℕ × ℕ) : ℕ × ℕ × ℕ × ℕ :=
  (n / (s.2.1 * (s.2.2.1 * s.2.2.2)),
   n / (s.2.2.1 * s.2.2.2) % s.2.1,
   n / s.2.2.2 % s.2.2.1,
   n % s.2.2.2)

/-- Row-major delinearization of a linear index into a 5-component shape. -/
def delin5 (n : ℕ) (s : ℕ × ℕ × ℕ × ℕ × ℕ) : ℕ × ℕ × ℕ × ℕ × ℕ :=
  (n / (s.2.1 * (s.2.2.1 * (s.2.2.2.1 * s.2.2.2.2))),
   n / (s.2.2.1 * (s.2.2.2.1 * s.2.2.2.2)) % s.2.1,
   n / (s.2.2.2.1 * s.2.2.2.2) % s.2.2.1,
   n / s.2.2.2.2 % s.2.2.2.1,
   n % s.2.2.2.2)

theorem mixed_div (a : ℕ) {m r : ℕ} (h : r < m) : (a * m + r) / m = a := by
  have hm : 0 < m := lt_of_le_of_lt (Nat.zero_le r) h
  rw [Nat.add_comm, Nat.add_mul_div_right _ _ hm, Nat.div_eq_of_lt h, Nat.zero_add]

theorem mixed_mod (a : ℕ) {m r : ℕ} (h : r < m) : (a * m + r) % m = r := by
  rw [Nat.add_comm, Nat.add_mul_mod_self_right, Nat.mod_eq_of_lt h]

theorem idx_lt {b B o C : ℕ} (hb : b < B) (ho : o < C) : b * C + o < B * C := by
  calc b * C + o < b * C + C := by omega
    _ = (b + 1) * C := by ring
    _ ≤ B * C := Nat.mul_le_mul_right C hb

theorem delin4_eval (u v i j U V H W : ℕ) (hv : v < V) (hi : i < H) (hj : j < W) :
    delin4 (((u * V + v) * H + i) * W + j) (U, V, H, W) = (u, v, i, j) := by
  have hiW : i * W + j < H * W := idx_lt hi hj
  have hrem : (v * H + i) * W + j < V * (H * W) := by
    have := idx_lt (idx_lt hv hi) hj
    calc (v * H + i) * W + j < V * H * W := this
      _ = V * (H * W) := by ring
  have hn2 : ((u * V + v) * H + i) * W + j = (u * V + v) * (H * W) + (i * W + j) := by
    ring
  have hn1 : ((u * V + v) * H + i) * W + j = u * (V * (H * W)) + ((v * H + i) * W + j) := by
    ring
  unfold delin4
  refine Prod.ext ?_ (Prod.ext ?_ (Prod.ext ?_ ?_)) <;> simp only
  · rw [hn1, mixed_div _ hrem]
  · rw [hn2, mixed_div _ hiW, mixed_mod _ hv]
  · rw [mixed_div _ hj, mixed_mod _ hi]
  · exact mixed_mod _ hj

theorem delin5_eval (u v w p q U V W K L : ℕ) (hv : v < V) (hw : w < W)
    (hp : p < K) (hq : q < L) :
    delin5 ((((u * V + v) * W + w) * K + p) * L + q) (U, V, W, K, L) =
      (u, v, w, p, q) := by
  have hpq : p * L + q < K * L := idx_lt hp hq
  have hwpq : (w * K + p) * L + q < W * (K * L) := by
    have := idx_lt (idx_lt hw hp) hq
    calc (w * K + p) * L + q < W * K * L := this
      _ = W * (K * L) := by ring
  have hrem : ((v * W + w) * K + p) * L + q < V * (W * (K * L)) := by
    have := idx_lt (idx_lt (idx_lt hv hw) hp) hq
    calc ((v * W + w) * K + p) * L + q < V * W * K * L := this
      _ = V * (W * (K * L)) := by ring
  have h1 : (((u * V + v) * W + w) * K + p) * L + q =
      u * (V * (W * (K * L))) + (((v * W + w) * K + p) * L + q) := by ring
  have h2 : (((u * V + v) * W + w) * K + p) * L + q =
      (u * V + v) * (W * (K * L)) + ((w * K + p) * L + q) := by ring
  have h3 : (((u * V + v) * W + w) * K + p) * L + q =
      ((u * V + v) * W + w) * (K * L) + (p * L + q) := by ring
  unfold delin5
  refine Prod.ext ?_ (Prod.ext ?_ (Prod.ext ?_ (Prod.ext ?_ ?_))) <;> simp only
  · rw [h1, mixed_div _ hrem]
  · rw [h2, mixed_div _ hwpq, mixed_mod _ hv]
  · rw [h3, mixed_div _ hpq, mixed_mod _ hw]
  · rw [mixed_div _ hq, mixed_mod _ hp]
  · exact mixed_mod _ hq

end IndexArithmetic

section TensorOps

variable {α : Type*}

/-- numpy/chainer row-major reshape of a rank-4 tensor to a rank-4 shape. -/
def Tensor4.reshape (t : Tensor4 α) (s : ℕ × ℕ × ℕ × ℕ) : Tensor4 α :=
  ⟨s, fun a b c d =>
    let i := delin4 (lin4 a b c d s) t.shape
    t.data i.1 i.2.1 i.2.2.1 i.2.2.2⟩

/-- numpy/chainer row-major reshape of a rank-5 tensor to a rank-4 shape. -/
def Tensor5.reshape4 (t : Tensor5 α) (s : ℕ × ℕ × ℕ × ℕ) : Tensor4 α :=
  ⟨s, fun a b c d =>
    let i := delin5 (lin4 a b c d s) t.shape
    t.data i.1 i.2.1 i.2.2.1 i.2.2.2.1 i.2.2.2.2⟩

/-- chainer.functions.pad with mode="edge" and padding p on both spatial
sides: an out-of-range spatial index is clamped to the nearest valid row or
column of the source (truncated subtraction realizes the lower clamp). -/
def padEdge (x : Tensor4 α) (p : ℕ) : Tensor4 α :=
  ⟨(x.shape.1, x.shape.2.1, x.shape.2.2.1 + 2 * p, x.shape.2.2.2 + 2 * p),
   fun b c i j =>
     x.data b c (min (i - p) (x.shape.2.2.1 - 1)) (min (j - p) (x.shape.2.2.2 - 1))⟩

/-- chainer.functions.convolution_2d with stride 1, pad 0 and the given
group count: input (n, ic, h, w), weights (oc, ic / groups, kh, kw); output
channel o belongs to group o / (oc / groups), which reads the corresponding
block of input channels. -/
def conv2d [NonUnitalNonAssocSemiring α] (x w : Tensor4 α) (groups : ℕ) : Tensor4 α :=
  ⟨(x.shape.1, w.shape.1, x.shape.2.2.1 + 1 - w.shape.2.2.1,
    x.shape.2.2.2 + 1 - w.shape.2.2.2),
   fun b o i j =>
     ∑ c ∈ Finset.range w.shape.2.1, ∑ p ∈ Finset.range w.shape.2.2.1,
       ∑ q ∈ Finset.range w.shape.2.2.2,
         x.data b (o / (w.shape.1 / groups) * w.shape.2.1 + c) (i + p) (j + q) *
           w.data o c p q⟩

end TensorOps

section ModulatedConvolution

variable {α : Type*} [LinearOrderedField α]

/-- The modulation step `mod_w = self.w * y.reshape(batch, 1, in_channels, 1, 1)`
of WeightDemodulatedConvolution2D.__call__: numpy broadcasting of the shared
weight (Cout, Cin, k, k) against the per-sample modulation (B, 1, Cin, 1, 1)
gives a (B, Cout, Cin, k, k) tensor whose entry (b, o, i, p, q) is
w[o,i,p,q] * y[b,i]. -/
def modW (w : Tensor4 α) (y : Tensor2 α) (batch : ℕ) : Tensor5 α :=
  ⟨(batch, w.shape.1, w.shape.2.1, w.shape.2.2.1, w.shape.2.2.2),
   fun b o i p q => w.data o i p q * y.data b i⟩

/-- The demodulation divisor `sqrt(sum(mod_w ** 2, axis=(2, 3, 4), keepdims=True) + eps)`
for sample b and output channel o.  The source hardcodes eps = 1e-8; the
epsilon is kept as a parameter so that the epsilon-free variant can also be
stated. -/
def demodDenom (sqrt : α → α) (eps : α) (mw : Tensor5 α) (b o : ℕ) : α :=
  sqrt ((∑ i ∈ Finset.range mw.shape.2.2.1, ∑ p ∈ Finset.range mw.shape.2.2.2.1,
    ∑ q ∈ Finset.range mw.shape.2.2.2.2, mw.data b o i p q ^ 2) + eps)

/-- The demodulation step `mod_w / sqrt(sum(mod_w ** 2, axis=(2, 3, 4), keepdims=True) + eps)`. -/
def demodStep (sqrt : α → α) (eps : α) (mw : Tensor5 α) : Tensor5 α :=
  ⟨mw.shape, fun b o i p q => mw.data b o i p q / demodDenom sqrt eps mw b o⟩

/-- State of WeightDemodulatedConvolution2D: demodulation flag, kernel size,
padding, the use-time scale constant c, the shared weight (Cout, Cin, k, k)
and the bias (Cout). -/
structure WeightDemodulatedConvolution2D (α : Type*) where
  demod : Bool
  ksize : ℕ
  pad : ℕ
  c : α
  w : Tensor4 α
  b : Tensor1 α

/-- WeightDemodulatedConvolution2D.__init__: ksize = 1 if pointwise else 3,
pad = 0 if pointwise else 1, c = gain * sqrt(1 / (in_channels * ksize ** 2));
the weight data (Normal-initialized in the source) and the bias data
(Zero-initialized) are taken as parameters. -/
def WeightDemodulatedConvolution2D.make (sqrt : α → α) (in_channels out_channels : ℕ)
    (pointwise demod : Bool) (gain : α) (wdata : ℕ → ℕ → ℕ → ℕ → α)
    (bdata : ℕ → α) : WeightDemodulatedConvolution2D α :=
  { demod := demod
    ksize := if pointwise then 1 else 3
    pad := if pointwise then 0 else 1
    c := gain * sqrt (1 / ((in_channels : α) * (if pointwise then (1 : α) else 3) ^ 2))
    w := ⟨(out_channels, in_channels, if pointwise then 1 else 3,
           if pointwise then 1 else 3), wdata⟩
    b := ⟨out_channels, bdata⟩ }

/-- The grouped-convolution stage of WeightDemodulatedConvolution2D.__call__:
everything from `mod_w = ...` up to and including
`h = convolution_2d(pad_group_x, group_w, stride=1, pad=0, groups=batch)`.
Note that the scale constant self.c is not read anywhere in the call. -/
def WeightDemodulatedConvolution2D.convStage (l : WeightDemodulatedConvolution2D α)
    (sqrt : α → α) (x : Tensor4 α) (y : Tensor2 α) : Tensor4 α :=
  let out_channels := l.b.shape
  let batch := x.shape.1
  let in_channels := x.shape.2.1
  let height := x.shape.2.2.1
  let width := x.shape.2.2.2
  let mod_w := modW l.w y batch
  let w := if l.demod then demodStep sqrt (1e-8 : α) mod_w else mod_w
  let group_w := w.reshape4 (batch * out_channels, in_channels, l.ksize, l.ksize)
  let group_x := x.reshape (1, batch * in_channels, height, width)
  let pad_group_x := padEdge group_x l.pad
  conv2d pad_group_x group_w batch

/-- WeightDemodulatedConvolution2D.__call__: the grouped-convolution stage,
reshaped back to (batch, out_channels, height, width), plus the bias
broadcast as `self.b.reshape(1, out_channels, 1, 1)`. -/
def WeightDemodulatedConvolution2D.call (l : WeightDemodulatedConvolution2D α)
    (sqrt : α → α) (x : Tensor4 α) (y : Tensor2 α) : Tensor4 α :=
  let out_channels := l.b.shape
  let batch := x.shape.1
  let height := x.shape.2.2.1
  let width := x.shape.2.2.2
  let r := (l.convStage sqrt x y).reshape (batch, out_channels, height, width)
  ⟨r.shape, fun b o i j => r.data b o i j + l.b.data o⟩

/-- Modelled from the spec (sections 4.2 and glossary, equalized learning
rate): the variant of the call that the claim describes, in which the shared
weight is multiplied at use time by the fixed fan-in-derived scale constant
self.c before modulation.  It differs from the source call only in scaling
mod_w by l.c. -/
def WeightDemodulatedConvolution2D.callScaled (l : WeightDemodulatedConvolution2D α)
    (sqrt : α → α) (x : Tensor4 α) (y : Tensor2 α) : Tensor4 α :=
  let out_channels := l.b.shape
  let batch := x.shape.1
  let in_channels := x.shape.2.1
  let height := x.shape.2.2.1
  let width := x.shape.2.2.2
  let scaled_w : Tensor4 α := ⟨l.w.shape, fun o i p q => l.c * l.w.data o i p q⟩
  let mod_w := modW scaled_w y batch
  let w := if l.demod then demodStep sqrt (1e-8 : α) mod_w else mod_w
  let group_w := w.reshape4 (batch * out_channels, in_channels, l.ksize, l.ksize)
  let group_x := x.reshape (1, batch * in_channels, height, width)
  let pad_group_x := padEdge group_x l.pad
  let h := conv2d pad_group_x group_w batch
  let r := h.reshape (batch, out_channels, height, width)
  ⟨r.shape, fun b o i j => r.data b o i j + l.b.data o⟩

end ModulatedConvolution

section GeneratorLinks

variable {α : Type*} [LinearOrderedField α]

/-- Modelled from the spec: EqualizedLinear (stylegan/links/common.py, not
in the sources).  Section 4.1: a learned affine map with weight matrix c x d
and bias; glossary "equalized learning rate convention": the
unit-variance-initialized weight is scaled at use time by the fixed
fan-in-derived constant gain * sqrt(1 / d). -/
structure EqualizedLinear (α : Type*) where
  scale : α
  w : Tensor2 α
  b : Tensor1 α

/-- Modelled from the spec: construction of EqualizedLinear for input size d
and output size c (weight data and bias data as parameters; the source
passes initial_bias=One() for the style projections). -/
def EqualizedLinear.make (sqrt : α → α) (size channels : ℕ) (gain : α)
    (wdata : ℕ → ℕ → α) (bdata : ℕ → α) : EqualizedLinear α :=
  { scale := gain * sqrt (1 / (size : α))
    w := ⟨(channels, size), wdata⟩
    b := ⟨channels, bdata⟩ }

/-- Modelled from the spec: the affine application y = scale * (W x) + b,
rowwise over the batch. -/
def EqualizedLinear.call (l : EqualizedLinear α) (x : Tensor2 α) : Tensor2 α :=
  ⟨(x.shape.1, l.w.shape.1),
   fun n o => l.scale * (∑ i ∈ Finset.range x.shape.2, x.data n i * l.w.data o i) +
     l.b.data o⟩

/-- StyleAffineTransform: a single EqualizedLinear s with gain 1 and
all-ones initial bias; __call__ returns self.s(w). -/
structure StyleAffineTransform (α : Type*) where
  s : EqualizedLinear α

def StyleAffineTransform.make (sqrt : α → α) (size channels : ℕ)
    (wdata : ℕ → ℕ → α) (bdata : ℕ → α) : StyleAffineTransform α :=
  ⟨EqualizedLinear.make sqrt size channels 1 wdata bdata⟩

def StyleAffineTransform.call (l : StyleAffineTransform α) (w : Tensor2 α) : Tensor2 α :=
  l.s.call w

/-- NoiseAdder: a learned per-channel magnitude s (Zero-initialized).  The
GaussianDistribution draw self.g(b, 1, h, w) is modelled from the spec as an
explicit injectable noise argument n (spec sections 4.3 and 9); __call__
returns x + scale(broadcast_to(n, x.shape), self.s), i.e. entry (b, c, i, j)
becomes x[b,c,i,j] + n[b,0,i,j] * s[c]. -/
structure NoiseAdder (α : Type*) where
  s : Tensor1 α

def NoiseAdder.make (channels : ℕ) (sdata : ℕ → α) : NoiseAdder α :=
  ⟨⟨channels, sdata⟩⟩

def NoiseAdder.call (l : NoiseAdder α) (x : Tensor4 α) (n : Tensor4 α) : Tensor4 α :=
  ⟨x.shape, fun b c i j => x.data b c i j + n.data b 0 i j * l.s.data c⟩

/-- Modelled from the spec: LeakyRelu (stylegan/links/common.py, not in the
sources), leaky rectified linear with slope 0.2 (spec section 4.6). -/
def leakyRelu (a : α) : α := if a < 0 then (0.2 : α) * a else a

/-- Elementwise application of the nonlinearity to a feature map. -/
def LeakyRelu.call (x : Tensor4 α) : Tensor4 α :=
  ⟨x.shape, fun b c i j => leakyRelu (x.data b c i j)⟩

/-- Source coordinates and interpolation weight for one output index of
chainer.functions.resize_images with align_corners=False and output size
2 * H: the sampling coordinate of output row i is (i + 1/2) * (H / 2H) - 1/2,
clipped into [0, H - 1]; bilinear interpolation mixes floor and floor + 1
(clamped) with the fractional part as weight. -/
def resizeCoord (H i : ℕ) : ℕ × ℕ × ℚ :=
  let u : ℚ := max 0 (min ((H : ℚ) - 1) ((2 * (i : ℚ) - 1) / 4))
  let i0 : ℕ := (⌊u⌋).toNat
  (i0, min (i0 + 1) (H - 1), u - (i0 : ℚ))

/-- Upsampler.__call__: resize_images(x, (height * 2, width * 2),
align_corners=False), bilinear, applied separably to rows and columns. -/
def Upsampler.call (x : Tensor4 α) : Tensor4 α :=
  ⟨(x.shape.1, x.shape.2.1, x.shape.2.2.1 * 2, x.shape.2.2.2 * 2),
   fun b c i j =>
     let ri := resizeCoord x.shape.2.2.1 i
     let rj := resizeCoord x.shape.2.2.2 j
     ((1 - ri.2.2 : ℚ) : α) * ((1 - rj.2.2 : ℚ) : α) * x.data b c ri.1 rj.1 +
       ((1 - ri.2.2 : ℚ) : α) * ((rj.2.2 : ℚ) : α) * x.data b c ri.1 rj.2.1 +
       ((ri.2.2 : ℚ) : α) * ((1 - rj.2.2 : ℚ) : α) * x.data b c ri.2.1 rj.1 +
       ((ri.2.2 : ℚ) : α) * ((rj.2.2 : ℚ) : α) * x.data b c ri.2.1 rj.2.1⟩

/-- ToRGB: a WeightDemodulatedConvolution2D with out_channels 3,
pointwise=True, demod=False, gain=1; __call__ returns self.w(x, y). -/
structure ToRGB (α : Type*) where
  w : WeightDemodulatedConvolution2D α

def ToRGB.make (sqrt : α → α) (in_channels : ℕ) (wdata : ℕ → ℕ → ℕ → ℕ → α)
    (bdata : ℕ → α) : ToRGB α :=
  ⟨WeightDemodulatedConvolution2D.make sqrt in_channels 3 true false 1 wdata bdata⟩

def ToRGB.call (l : ToRGB α) (sqrt : α → α) (x : Tensor4 α) (y : Tensor2 α) : Tensor4 α :=
  l.w.call sqrt x y

/-- InitialSkipArchitecture: the learned constant c1 of shape
(in_channels, 4, 4), two style projections, one demodulated convolution,
one noise adder, one leaky relu and one RGB projection. -/
structure InitialSkipArchitecture (α : Type*) where
  c1 : Tensor3 α
  s1 : StyleAffineTransform α
  w1 : WeightDemodulatedConvolution2D α
  n1 : NoiseAdder α
  s2 : StyleAffineTransform α
  trgb : ToRGB α

def InitialSkipArchitecture.make (sqrt : α → α) (size in_channels out_channels : ℕ)
    (c1d : ℕ → ℕ → ℕ → α) (s1w : ℕ → ℕ → α) (s1b : ℕ → α)
    (w1w : ℕ → ℕ → ℕ → ℕ → α) (w1b : ℕ → α) (n1s : ℕ → α)
    (s2w : ℕ → ℕ → α) (s2b : ℕ → α)
    (tw : ℕ → ℕ → ℕ → ℕ → α) (tb : ℕ → α) : InitialSkipArchitecture α :=
  { c1 := ⟨(in_channels, 4, 4), c1d⟩
    s1 := StyleAffineTransform.make sqrt size in_channels s1w s1b
    w1 := WeightDemodulatedConvolution2D.make sqrt in_channels out_channels
      false true (sqrt 2) w1w w1b
    n1 := NoiseAdder.make out_channels n1s
    s2 := StyleAffineTransform.make sqrt size out_channels s2w s2b
    trgb := ToRGB.make sqrt out_channels tw tb }

/-- InitialSkipArchitecture.__call__ with the noise draw of n1 passed
explicitly: h1 = c1.reshape(1, *c1.shape), h2 = broadcast_to(h1,
(batch, *c1.shape)), h3 = w1(h2, s1(w)), h4 = n1(h3), h5 = a1(h4); returns
(h5, trgb(h5, s2(w))). -/
def InitialSkipArchitecture.call (blk : InitialSkipArchitecture α) (sqrt : α → α)
    (w : Tensor2 α) (noise1 : Tensor4 α) : Tensor4 α × Tensor4 α :=
  let batch := w.shape.1
  let h2 : Tensor4 α :=
    ⟨(batch, blk.c1.shape.1, blk.c1.shape.2.1, blk.c1.shape.2.2),
     fun _ c i j => blk.c1.data c i j⟩
  let h3 := blk.w1.call sqrt h2 (blk.s1.call w)
  let h4 := blk.n1.call h3 noise1
  let h5 := LeakyRelu.call h4
  (h5, blk.trgb.call sqrt h5 (blk.s2.call w))

/-- SkipArchitecture: upsampler, three style projections, two demodulated
convolutions, two noise adders, two leaky relus, one RGB projection and the
skip upsampler (the two upsamplers are stateless and functionally
identical). -/
structure SkipArchitecture (α : Type*) where
  s1 : StyleAffineTransform α
  w1 : WeightDemodulatedConvolution2D α
  n1 : NoiseAdder α
  s2 : StyleAffineTransform α
  w2 : WeightDemodulatedConvolution2D α
  n2 : NoiseAdder α
  s3 : StyleAffineTransform α
  trgb : ToRGB α

def SkipArchitecture.make (sqrt : α → α) (size in_channels out_channels : ℕ)
    (s1w : ℕ → ℕ → α) (s1b : ℕ → α) (w1w : ℕ → ℕ → ℕ → ℕ → α) (w1b : ℕ → α)
    (n1s : ℕ → α) (s2w : ℕ → ℕ → α) (s2b : ℕ → α)
    (w2w : ℕ → ℕ → ℕ → ℕ → α) (w2b : ℕ → α) (n2s : ℕ → α)
    (s3w : ℕ → ℕ → α) (s3b : ℕ → α)
    (tw : ℕ → ℕ → ℕ → ℕ → α) (tb : ℕ → α) : SkipArchitecture α :=
  { s1 := StyleAffineTransform.make sqrt size in_channels s1w s1b
    w1 := WeightDemodulatedConvolution2D.make sqrt in_channels out_channels
      false true (sqrt 2) w1w w1b
    n1 := NoiseAdder.make out_channels n1s
    s2 := StyleAffineTransform.make sqrt size out_channels s2w s2b
    w2 := WeightDemodulatedConvolution2D.make sqrt out_channels out_channels
      false true (sqrt 2) w2w w2b
    n2 := NoiseAdder.make out_channels n2s
    s3 := StyleAffineTransform.make sqrt size out_channels s3w s3b
    trgb := ToRGB.make sqrt out_channels tw tb }

/-- SkipArchitecture.__call__ with the two noise draws passed explicitly:
h1 = up(x), h2 = w1(h1, s1(w)), h3 = n1(h2), h4 = a1(h3), h5 = w2(h4, s2(w)),
h6 = n2(h5), h7 = a2(h6); returns (h7, skip(y) + trgb(h7, s3(w))). -/
def SkipArchitecture.call (blk : SkipArchitecture α) (sqrt : α → α)
    (x y : Tensor4 α) (w : Tensor2 α) (noise1 noise2 : Tensor4 α) :
    Tensor4 α × Tensor4 α :=
  let h1 := Upsampler.call x
  let h2 := blk.w1.call sqrt h1 (blk.s1.call w)
  let h3 := blk.n1.call h2 noise1
  let h4 := LeakyRelu.call h3
  let h5 := blk.w2.call sqrt h4 (blk.s2.call w)
  let h6 := blk.n2.call h5 noise2
  let h7 := LeakyRelu.call h6
  (h7, (Upsampler.call y).add (blk.trgb.call sqrt h7 (blk.s3.call w)))

/-- Modelled from the spec: the same block applied with a separate style
vector for each of the three affine style projections; used to state that
the single-style call is its diagonal. -/
def SkipArchitecture.callMulti (blk : SkipArchitecture α) (sqrt : α → α)
    (x y : Tensor4 α) (wa wb wc : Tensor2 α) (noise1 noise2 : Tensor4 α) :
    Tensor4 α × Tensor4 α :=
  let h1 := Upsampler.call x
  let h2 := blk.w1.call sqrt h1 (blk.s1.call wa)
  let h3 := blk.n1.call h2 noise1
  let h4 := LeakyRelu.call h3
  let h5 := blk.w2.call sqrt h4 (blk.s2.call wb)
  let h6 := blk.n2.call h5 noise2
  let h7 := LeakyRelu.call h6
  (h7, (Upsampler.call y).add (blk.trgb.call sqrt h7 (blk.s3.call wc)))

end GeneratorLinks

section ImageUtility

/-- gamma_forward from utilities/image.py: the sRGB transfer function,
linear branch 12.92 * u for u <= 0.0031308, power branch
1.055 * u ** (1 / 2.4) - 0.055 above. -/
noncomputable def gamma_forward (u : ℝ) : ℝ :=
  if u ≤ 0.0031308 then 12.92 * u else 1.055 * u ^ ((1 : ℝ) / 2.4) - 0.055

/-- gamma_reverse from utilities/image.py: the inverse sRGB transfer
function, linear branch u / 12.92 for u <= 0.04045, power branch
((u + 0.055) / 1.055) ** 2.4 above. -/
noncomputable def gamma_reverse (u : ℝ) : ℝ :=
  if u ≤ 0.04045 then u / 12.92 else ((u + 0.055) / 1.055) ^ (2.4 : ℝ)

/-- rgb_to_srgb = vectorize(gamma_forward): the elementwise action of the
vectorized encoder on one sample. -/
noncomputable def rgb_to_srgb (u : ℝ) : ℝ := gamma_forward u

/-- srgb_to_rgb = vectorize(gamma_reverse): the elementwise action of the
vectorized decoder on one sample. -/
noncomputable def srgb_to_rgb (u : ℝ) : ℝ := gamma_reverse u

/-- numpy.rint: round to nearest integer, ties to even. -/
noncomputable def rint (x : ℝ) : ℤ :=
  if x - ⌊x⌋ < 1 / 2 then ⌊x⌋
  else if 1 / 2 < x - ⌊x⌋ then ⌊x⌋ + 1
  else if Even ⌊x⌋ then ⌊x⌋ else ⌊x⌋ + 1

/-- numpy.clip(·, 0, 255) on an integer sample. -/
def clip8 (z : ℤ) : ℤ := max 0 (min z 255)

/-- One sample of load_image (utilities/image.py) after decoding: the 8-bit
value n is divided by 255 and gamma-decoded to linear light. -/
noncomputable def loadPixel (n : ℕ) : ℝ := srgb_to_rgb ((n : ℝ) / 255)

/-- One sample of to_pil_image / save_image: the linear-light value is
gamma-encoded, multiplied by 255, rounded with rint and clipped to
[0, 255]. -/
noncomputable def savePixel (v : ℝ) : ℤ := clip8 (rint (rgb_to_srgb v * 255))

/-- The full save-after-load round trip on one 8-bit sample. -/
noncomputable def saveLoadPixel (n : ℕ) : ℤ := savePixel (loadPixel n)

/-- An 8-bit RGB image in (height, width, channel) order, as PIL delivers
it, together with the load_image transpose to (channel, height, width) and
the to_pil_image transpose back: entry (i, j, c) of the saved image is the
round trip of entry (i, j, c) of the input. -/
noncomputable def loadArray (x : ℕ → ℕ → ℕ → ℕ) : ℕ → ℕ → ℕ → ℝ :=
  fun c i j => loadPixel (x i j c)

noncomputable def saveArray (t : ℕ → ℕ → ℕ → ℝ) : ℕ → ℕ → ℕ → ℤ :=
  fun i j c => savePixel (t c i j)

end ImageUtility

section ConvolutionDenotation

variable {α : Type*} [LinearOrderedField α]

theorem demod_if_shape (sqrt : α → α) (eps : α) (d : Bool) (mw : Tensor5 α) :
    (if d then demodStep sqrt eps mw else mw).shape = mw.shape := by
  cases d <;> rfl

theorem WeightDemodulatedConvolution2D.call_shape
    (l : WeightDemodulatedConvolution2D α) (sqrt : α → α) (x : Tensor4 α)
    (y : Tensor2 α) :
    (l.call sqrt x y).shape = (x.shape.1, l.b.shape, x.shape.2.2.1, x.shape.2.2.2) :=
  rfl

/-- Denotation of the grouped-convolution trick: on in-range indices, the
call of WeightDemodulatedConvolution2D computes, per sample b and output
channel o, an ordinary edge-padded 2-d correlation of sample b of the input
with the (modulated, optionally demodulated) weight tensor of sample b,
plus the bias. -/
theorem WeightDemodulatedConvolution2D.call_data
    (l : WeightDemodulatedConvolution2D α) (sqrt : α → α) (x : Tensor4 α)
    (y : Tensor2 α) {B Cin Cout H W : ℕ}
    (hx : x.shape = (B, Cin, H, W))
    (hw : l.w.shape = (Cout, Cin, l.ksize, l.ksize))
    (hb : l.b.shape = Cout) (hk : l.ksize = 2 * l.pad + 1)
    {b o i j : ℕ} (hbB : b < B) (ho : o < Cout) (hi : i < H) (hj : j < W) :
    (l.call sqrt x y).data b o i j =
      (∑ c ∈ Finset.range Cin, ∑ p ∈ Finset.range l.ksize,
        ∑ q ∈ Finset.range l.ksize,
          x.data b c (min (i + p - l.pad) (H - 1)) (min (j + q - l.pad) (W - 1)) *
            (if l.demod then demodStep sqrt (1e-8 : α) (modW l.w y B)
              else modW l.w y B).data b o c p q) + l.b.data o := by
  have hB : 0 < B := by omega
  have hH : 0 < H := by omega
  have hW : 0 < W := by omega
  have hmw : (modW l.w y B).shape = (B, Cout, Cin, l.ksize, l.ksize) := by
    simp [modW, hw]
  have hHk : H + 2 * l.pad + 1 - l.ksize = H := by omega
  have hWk : W + 2 * l.pad + 1 - l.ksize = W := by omega
  have hdivB : B * Cout / B = Cout := Nat.mul_div_cancel_left Cout hB
  have hdivO : (b * Cout + o) / Cout = b := mixed_div b ho
  simp only [WeightDemodulatedConvolution2D.call,
    WeightDemodulatedConvolution2D.convStage, Tensor4.reshape, Tensor5.reshape4,
    conv2d, padEdge, modW, hx, hb]
  simp only [demod_if_shape, modW, hw, hx, hb]
  have e1 : lin4 b o i j (B, Cout, H, W) =
      ((0 * (B * Cout) + (b * Cout + o)) * H + i) * W + j := by
    simp [lin4]
  rw [hHk, hWk, e1, delin4_eval 0 (b * Cout + o) i j 1 (B * Cout) H W
    (idx_lt hbB ho) hi hj]
  simp only [hdivB, hdivO]
  congr 1
  refine Finset.sum_congr rfl fun c hc => Finset.sum_congr rfl fun p hp =>
    Finset.sum_congr rfl fun q hq => ?_
  have hc' : c < Cin := Finset.mem_range.mp hc
  have hp' : p < l.ksize := Finset.mem_range.mp hp
  have hq' : q < l.ksize := Finset.mem_range.mp hq
  have hi' : min (i + p - l.pad) (H - 1) < H := by omega
  have hj' : min (j + q - l.pad) (W - 1) < W := by omega
  have e2 : lin4 0 (b * Cin + c) (min (i + p - l.pad) (H - 1))
      (min (j + q - l.pad) (W - 1)) (1, B * Cin, H, W) =
      ((b * Cin + c) * H + min (i + p - l.pad) (H - 1)) * W +
        min (j + q - l.pad) (W - 1) := by
    simp [lin4]
  have e3 : lin4 (b * Cout + o) c p q (B * Cout, Cin, l.ksize, l.ksize) =
      (((b * Cout + o) * Cin + c) * l.ksize + p) * l.ksize + q := by
    simp [lin4]
  rw [e2, delin4_eval b c _ _ B Cin H W hc' hi' hj', e3,
    delin5_eval b o c p q B Cout Cin l.ksize l.ksize ho hc' hp' hq']

end ConvolutionDenotation

section BatchToolkit

variable {α : Type*} [LinearOrderedField α]

/-- The per-sample (optionally demodulated) weight tensor reads the
modulation argument only through row b: its entries and the demodulation
divisor for sample b are invariant under replacing the modulation tensor by
any tensor with the same row, whatever the batch sizes. -/
theorem wif_data_congr (d : Bool) (sqrt : α → α) (eps : α) (w : Tensor4 α)
    (y y' : Tensor2 α) (B B' b b' o c p q : ℕ)
    (hy : ∀ i, y.data b i = y'.data b' i) :
    (if d then demodStep sqrt eps (modW w y B) else modW w y B).data b o c p q =
      (if d then demodStep sqrt eps (modW w y' B') else modW w y' B').data b' o c p q := by
  cases d
  · simp [modW, hy]
  · simp [demodStep, demodDenom, modW, hy]

/-- Batch independence of the grouped convolution: on in-range indices, the
call on a batch-concatenated input and modulation equals the concatenation
of the two separate calls. -/
theorem WeightDemodulatedConvolution2D.call_concat_conv
    (l : WeightDemodulatedConvolution2D α) (sqrt : α → α)
    (x1 x2 : Tensor4 α) (y1 y2 : Tensor2 α) {B1 B2 Cin Cout H W : ℕ}
    (hx1 : x1.shape = (B1, Cin, H, W)) (hx2 : x2.shape = (B2, Cin, H, W))
    (hy1 : y1.shape.1 = B1)
    (hw : l.w.shape = (Cout, Cin, l.ksize, l.ksize)) (hb : l.b.shape = Cout)
    (hk : l.ksize = 2 * l.pad + 1) :
    (l.call sqrt (x1.concatB x2) (y1.concatB y2)).EqOn
      ((l.call sqrt x1 y1).concatB (l.call sqrt x2 y2)) := by
  have hcat : (x1.concatB x2).shape = (B1 + B2, Cin, H, W) := by
    simp [Tensor4.concatB, hx1, hx2]
  constructor
  · simp [WeightDemodulatedConvolution2D.call_shape, Tensor4.concatB_shape,
      hcat, hx1, hx2, hb]
  · intro b o i j hb' ho hi hj
    simp only [WeightDemodulatedConvolution2D.call_shape, hcat, hb] at hb' ho hi hj
    rw [l.call_data sqrt _ _ hcat hw hb hk hb' ho hi hj]
    simp only [Tensor4.concatB, WeightDemodulatedConvolution2D.call_shape, hx1]
    by_cases hbb : b < B1
    · rw [if_pos hbb, l.call_data sqrt x1 y1 hx1 hw hb hk hbb ho hi hj]
      congr 1
      refine Finset.sum_congr rfl fun c hc => Finset.sum_congr rfl fun p hp =>
        Finset.sum_congr rfl fun q hq => ?_
      rw [if_pos hbb]
      exact congrArg _ (wif_data_congr l.demod sqrt _ l.w _ y1 (B1 + B2) B1 b b o c p q
        (fun i => by simp [Tensor2.concatB, hy1, hbb]))
    · have hbb2 : b - B1 < B2 := by omega
      rw [if_neg hbb, l.call_data sqrt x2 y2 hx2 hw hb hk hbb2 ho hi hj]
      congr 1
      refine Finset.sum_congr rfl fun c hc => Finset.sum_congr rfl fun p hp =>
        Finset.sum_congr rfl fun q hq => ?_
      rw [if_neg hbb]
      exact congrArg _ (wif_data_congr l.demod sqrt _ l.w _ y2 (B1 + B2) B2 b (b - B1) o c p q
        (fun i => by simp [Tensor2.concatB, hy1, hbb]))

/-- The call respects observable equality of its feature input and
modulation input. -/
theorem WeightDemodulatedConvolution2D.call_congr
    (l : WeightDemodulatedConvolution2D α) (sqrt : α → α)
    (x x' : Tensor4 α) (y y' : Tensor2 α) {B Cin Cout H W : ℕ}
    (hx : x.shape = (B, Cin, H, W)) (hx' : x'.shape = (B, Cin, H, W))
    (hw : l.w.shape = (Cout, Cin, l.ksize, l.ksize)) (hb : l.b.shape = Cout)
    (hk : l.ksize = 2 * l.pad + 1)
    (hd : ∀ b c i j, b < B → c < Cin → i < H → j < W →
      x.data b c i j = x'.data b c i j)
    (hy : ∀ b i, b < B → y.data b i = y'.data b i) :
    (l.call sqrt x y).EqOn (l.call sqrt x' y') := by
  constructor
  · simp [WeightDemodulatedConvolution2D.call_shape, hx, hx']
  · intro b o i j hb' ho hi hj
    simp only [WeightDemodulatedConvolution2D.call_shape, hx, hb] at hb' ho hi hj
    rw [l.call_data sqrt x y hx hw hb hk hb' ho hi hj,
      l.call_data sqrt x' y' hx' hw hb hk hb' ho hi hj]
    congr 1
    refine Finset.sum_congr rfl fun c hc => Finset.sum_congr rfl fun p hp =>
      Finset.sum_congr rfl fun q hq => ?_
    have hc' : c < Cin := Finset.mem_range.mp hc
    have hi' : min (i + p - l.pad) (H - 1) < H := by omega
    have hj' : min (j + q - l.pad) (W - 1) < W := by omega
    rw [hd b c _ _ hb' hc' hi' hj']
    exact congrArg _ (wif_data_congr l.demod sqrt _ l.w y y' B B b b o c p q
      (fun i => hy b i hb'))

/-- The bilinear upsampler acts independently on each batch sample. -/
theorem Upsampler.call_concat_upsample (x1 x2 : Tensor4 α) {B1 B2 C H W : ℕ}
    (hx1 : x1.shape = (B1, C, H, W)) (hx2 : x2.shape = (B2, C, H, W)) :
    Upsampler.call (x1.concatB x2) =
      (Upsampler.call x1).concatB (Upsampler.call x2) := by
  apply Tensor4.ext_data4
  · simp [Upsampler.call, Tensor4.concatB, hx1, hx2]
  · intro b c i j
    simp only [Upsampler.call, Tensor4.concatB, hx1, hx2]
    by_cases hb : b < B1 <;> simp [hb]

/-- The elementwise nonlinearity acts independently on each batch sample. -/
theorem LeakyRelu.call_concat_leaky (x1 x2 : Tensor4 α) :
    LeakyRelu.call (x1.concatB x2) =
      (LeakyRelu.call x1).concatB (LeakyRelu.call x2) := by
  apply Tensor4.ext_data4
  · rfl
  · intro b c i j
    simp only [LeakyRelu.call, Tensor4.concatB]
    by_cases hb : b < x1.shape.1 <;> simp [hb]

/-- The affine style projection acts independently on each batch row. -/
theorem EqualizedLinear.call_concat_linear (l : EqualizedLinear α) (y1 y2 : Tensor2 α)
    (hS : y2.shape.2 = y1.shape.2) :
    l.call (y1.concatB y2) = (l.call y1).concatB (l.call y2) := by
  apply Tensor2.ext_data2
  · rfl
  · intro n o
    simp only [EqualizedLinear.call, Tensor2.concatB]
    by_cases h : n < y1.shape.1 <;> simp [h, hS]

/-- Elementwise addition acts independently on each batch sample. -/
theorem Tensor4.add_concat (x1 x2 y1 y2 : Tensor4 α) (h : y1.shape.1 = x1.shape.1) :
    (x1.concatB x2).add (y1.concatB y2) = (x1.add y1).concatB (x2.add y2) := by
  apply Tensor4.ext_data4
  · rfl
  · intro b c i j
    simp only [Tensor4.add, Tensor4.concatB, h]
    by_cases hb : b < x1.shape.1 <;> simp [hb]

/-- With the noise draw pinned to zero the noise adder is the identity. -/
theorem NoiseAdder.call_zeros (l : NoiseAdder α) (x : Tensor4 α) (s : ℕ × ℕ × ℕ × ℕ) :
    l.call x (zeros4 s) = x := by
  apply Tensor4.ext_data4
  · rfl
  · intro b c i j
    simp [NoiseAdder.call, zeros4]

theorem LeakyRelu.call_eqOn {x y : Tensor4 α} (h : x.EqOn y) :
    (LeakyRelu.call x).EqOn (LeakyRelu.call y) := by
  refine ⟨h.1, fun b c i j hb hc hi hj => ?_⟩
  simp only [LeakyRelu.call]
  exact congrArg leakyRelu (h.2 b c i j hb hc hi hj)

theorem Tensor4.add_eqOn {x x' y y' : Tensor4 α} (hx : x.EqOn x') (hy : y.EqOn y')
    (hsh : y.shape = x.shape) : (x.add y).EqOn (x'.add y') := by
  refine ⟨hx.1, fun b c i j hb hc hi hj => ?_⟩
  simp only [Tensor4.add] at hb hc hi hj ⊢
  rw [hx.2 b c i j hb hc hi hj, hy.2 b c i j (by rw [hsh]; exact hb)
    (by rw [hsh]; exact hc) (by rw [hsh]; exact hi) (by rw [hsh]; exact hj)]

end BatchToolkit

section BlockBatchIndependence

variable {α : Type*} [LinearOrderedField α]

/-- Batch independence of UpsampleBlock (SkipArchitecture) with the noise
draws pinned to zero: the block applied to batch-concatenated feature maps,
accumulators and style vectors agrees, on every in-range index of both
outputs, with the concatenation of the two separate runs. -/
theorem SkipArchitecture.call_concat_block (blk : SkipArchitecture α) (sqrt : α → α)
    (x1 x2 y1 y2 : Tensor4 α) (w1 w2 : Tensor2 α) {B1 B2 Cin Cout H W S : ℕ}
    (hx1 : x1.shape = (B1, Cin, H, W)) (hx2 : x2.shape = (B2, Cin, H, W))
    (hy1 : y1.shape = (B1, 3, H, W)) (hy2 : y2.shape = (B2, 3, H, W))
    (hw1 : w1.shape = (B1, S)) (hw2 : w2.shape = (B2, S))
    (hbw1 : blk.w1.w.shape = (Cout, Cin, blk.w1.ksize, blk.w1.ksize))
    (hbb1 : blk.w1.b.shape = Cout) (hbk1 : blk.w1.ksize = 2 * blk.w1.pad + 1)
    (hbw2 : blk.w2.w.shape = (Cout, Cout, blk.w2.ksize, blk.w2.ksize))
    (hbb2 : blk.w2.b.shape = Cout) (hbk2 : blk.w2.ksize = 2 * blk.w2.pad + 1)
    (hbwt : blk.trgb.w.w.shape = (3, Cout, blk.trgb.w.ksize, blk.trgb.w.ksize))
    (hbbt : blk.trgb.w.b.shape = 3)
    (hbkt : blk.trgb.w.ksize = 2 * blk.trgb.w.pad + 1)
    (sA sB : ℕ × ℕ × ℕ × ℕ) :
    ((blk.call sqrt (x1.concatB x2) (y1.concatB y2) (w1.concatB w2)
        (zeros4 sA) (zeros4 sB)).1).EqOn
      (((blk.call sqrt x1 y1 w1 (zeros4 sA) (zeros4 sB)).1).concatB
        ((blk.call sqrt x2 y2 w2 (zeros4 sA) (zeros4 sB)).1)) ∧
    ((blk.call sqrt (x1.concatB x2) (y1.concatB y2) (w1.concatB w2)
        (zeros4 sA) (zeros4 sB)).2).EqOn
      (((blk.call sqrt x1 y1 w1 (zeros4 sA) (zeros4 sB)).2).concatB
        ((blk.call sqrt x2 y2 w2 (zeros4 sA) (zeros4 sB)).2)) := by
  have hS : w2.shape.2 = w1.shape.2 := by rw [hw1, hw2]
  have hU1 : (Upsampler.call x1).shape = (B1, Cin, H * 2, W * 2) := by
    simp [Upsampler.call, hx1]
  have hU2 : (Upsampler.call x2).shape = (B2, Cin, H * 2, W * 2) := by
    simp [Upsampler.call, hx2]
  have hM1 : (blk.s1.s.call w1).shape.1 = B1 := by
    simp [EqualizedLinear.call, hw1]
  have hM21 : (blk.s2.s.call w1).shape.1 = B1 := by
    simp [EqualizedLinear.call, hw1]
  have hM31 : (blk.s3.s.call w1).shape.1 = B1 := by
    simp [EqualizedLinear.call, hw1]
  simp only [SkipArchitecture.call, StyleAffineTransform.call, ToRGB.call]
  rw [Upsampler.call_concat_upsample x1 x2 hx1 hx2, Upsampler.call_concat_upsample y1 y2 hy1 hy2,
    EqualizedLinear.call_concat_linear blk.s1.s w1 w2 hS,
    EqualizedLinear.call_concat_linear blk.s2.s w1 w2 hS,
    EqualizedLinear.call_concat_linear blk.s3.s w1 w2 hS]
  simp only [NoiseAdder.call_zeros]
  have eA : (blk.w1.call sqrt ((Upsampler.call x1).concatB (Upsampler.call x2))
      ((blk.s1.s.call w1).concatB (blk.s1.s.call w2))).EqOn
      ((blk.w1.call sqrt (Upsampler.call x1) (blk.s1.s.call w1)).concatB
        (blk.w1.call sqrt (Upsampler.call x2) (blk.s1.s.call w2))) :=
    blk.w1.call_concat_conv sqrt _ _ _ _ hU1 hU2 hM1 hbw1 hbb1 hbk1
  have hA1 : (blk.w1.call sqrt (Upsampler.call x1) (blk.s1.s.call w1)).shape =
      (B1, Cout, H * 2, W * 2) := by
    simp [WeightDemodulatedConvolution2D.call_shape, hU1, hbb1]
  have hA2 : (blk.w1.call sqrt (Upsampler.call x2) (blk.s1.s.call w2)).shape =
      (B2, Cout, H * 2, W * 2) := by
    simp [WeightDemodulatedConvolution2D.call_shape, hU2, hbb1]
  have eB : (LeakyRelu.call (blk.w1.call sqrt
      ((Upsampler.call x1).concatB (Upsampler.call x2))
      ((blk.s1.s.call w1).concatB (blk.s1.s.call w2)))).EqOn
      ((LeakyRelu.call (blk.w1.call sqrt (Upsampler.call x1)
          (blk.s1.s.call w1))).concatB
        (LeakyRelu.call (blk.w1.call sqrt (Upsampler.call x2)
          (blk.s1.s.call w2)))) :=
    (LeakyRelu.call_eqOn eA).trans (Tensor4.EqOn.of_eq (LeakyRelu.call_concat_leaky _ _))
  have hLsh : (LeakyRelu.call (blk.w1.call sqrt
      ((Upsampler.call x1).concatB (Upsampler.call x2))
      ((blk.s1.s.call w1).concatB (blk.s1.s.call w2)))).shape =
      (B1 + B2, Cout, H * 2, W * 2) := by
    simp [LeakyRelu.call, WeightDemodulatedConvolution2D.call_shape,
      Tensor4.concatB_shape, hU1, hU2, hbb1]
  have hLA1 : (LeakyRelu.call (blk.w1.call sqrt (Upsampler.call x1)
      (blk.s1.s.call w1))).shape = (B1, Cout, H * 2, W * 2) := by
    simpa [LeakyRelu.call] using hA1
  have hLA2 : (LeakyRelu.call (blk.w1.call sqrt (Upsampler.call x2)
      (blk.s1.s.call w2))).shape = (B2, Cout, H * 2, W * 2) := by
    simpa [LeakyRelu.call] using hA2
  have hLcat : ((LeakyRelu.call (blk.w1.call sqrt (Upsampler.call x1)
      (blk.s1.s.call w1))).concatB
      (LeakyRelu.call (blk.w1.call sqrt (Upsampler.call x2)
        (blk.s1.s.call w2)))).shape = (B1 + B2, Cout, H * 2, W * 2) := by
    simp [Tensor4.concatB_shape, hLA1, hLA2]
  have eC : (blk.w2.call sqrt (LeakyRelu.call (blk.w1.call sqrt
      ((Upsampler.call x1).concatB (Upsampler.call x2))
      ((blk.s1.s.call w1).concatB (blk.s1.s.call w2))))
      ((blk.s2.s.call w1).concatB (blk.s2.s.call w2))).EqOn
      ((blk.w2.call sqrt (LeakyRelu.call (blk.w1.call sqrt (Upsampler.call x1)
          (blk.s1.s.call w1))) (blk.s2.s.call w1)).concatB
        (blk.w2.call sqrt (LeakyRelu.call (blk.w1.call sqrt (Upsampler.call x2)
          (blk.s1.s.call w2))) (blk.s2.s.call w2))) := by
    refine (blk.w2.call_congr sqrt _ _ _ _ hLsh hLcat hbw2 hbb2 hbk2
      (fun b c i j hb hc hi hj => eB.2 b c i j (by rw [hLsh]; exact hb)
        (by rw [hLsh]; exact hc) (by rw [hLsh]; exact hi)
        (by rw [hLsh]; exact hj)) (fun b i _ => rfl)).trans
      (blk.w2.call_concat_conv sqrt _ _ _ _ hLA1 hLA2 hM21 hbw2 hbb2 hbk2)
  have eD : (LeakyRelu.call (blk.w2.call sqrt (LeakyRelu.call (blk.w1.call sqrt
      ((Upsampler.call x1).concatB (Upsampler.call x2))
      ((blk.s1.s.call w1).concatB (blk.s1.s.call w2))))
      ((blk.s2.s.call w1).concatB (blk.s2.s.call w2)))).EqOn
      ((LeakyRelu.call (blk.w2.call sqrt (LeakyRelu.call (blk.w1.call sqrt
          (Upsampler.call x1) (blk.s1.s.call w1))) (blk.s2.s.call w1))).concatB
        (LeakyRelu.call (blk.w2.call sqrt (LeakyRelu.call (blk.w1.call sqrt
          (Upsampler.call x2) (blk.s1.s.call w2))) (blk.s2.s.call w2)))) :=
    (LeakyRelu.call_eqOn eC).trans (Tensor4.EqOn.of_eq (LeakyRelu.call_concat_leaky _ _))
  refine ⟨eD, ?_⟩
  have hDsh : (LeakyRelu.call (blk.w2.call sqrt (LeakyRelu.call (blk.w1.call sqrt
      ((Upsampler.call x1).concatB (Upsampler.call x2))
      ((blk.s1.s.call w1).concatB (blk.s1.s.call w2))))
      ((blk.s2.s.call w1).concatB (blk.s2.s.call w2)))).shape =
      (B1 + B2, Cout, H * 2, W * 2) := by
    simp [LeakyRelu.call, WeightDemodulatedConvolution2D.call_shape,
      Tensor4.concatB_shape, Upsampler.call, hx1, hx2, hbb1, hbb2]
  have hD1 : (LeakyRelu.call (blk.w2.call sqrt (LeakyRelu.call (blk.w1.call sqrt
      (Upsampler.call x1) (blk.s1.s.call w1))) (blk.s2.s.call w1))).shape =
      (B1, Cout, H * 2, W * 2) := by
    simp [LeakyRelu.call, WeightDemodulatedConvolution2D.call_shape,
      Upsampler.call, hx1, hbb1, hbb2]
  have hD2 : (LeakyRelu.call (blk.w2.call sqrt (LeakyRelu.call (blk.w1.call sqrt
      (Upsampler.call x2) (blk.s1.s.call w2))) (blk.s2.s.call w2))).shape =
      (B2, Cout, H * 2, W * 2) := by
    simp [LeakyRelu.call, WeightDemodulatedConvolution2D.call_shape,
      Upsampler.call, hx2, hbb1, hbb2]
  have hDcat : ((LeakyRelu.call (blk.w2.call sqrt (LeakyRelu.call (blk.w1.call sqrt
      (Upsampler.call x1) (blk.s1.s.call w1))) (blk.s2.s.call w1))).concatB
      (LeakyRelu.call (blk.w2.call sqrt (LeakyRelu.call (blk.w1.call sqrt
        (Upsampler.call x2) (blk.s1.s.call w2))) (blk.s2.s.call w2)))).shape =
      (B1 + B2, Cout, H * 2, W * 2) := by
    simp [Tensor4.concatB_shape, hD1, hD2]
  have eT : (blk.trgb.w.call sqrt (LeakyRelu.call (blk.w2.call sqrt
      (LeakyRelu.call (blk.w1.call sqrt
        ((Upsampler.call x1).concatB (Upsampler.call x2))
        ((blk.s1.s.call w1).concatB (blk.s1.s.call w2))))
      ((blk.s2.s.call w1).concatB (blk.s2.s.call w2))))
      ((blk.s3.s.call w1).concatB (blk.s3.s.call w2))).EqOn
      ((blk.trgb.w.call sqrt (LeakyRelu.call (blk.w2.call sqrt
          (LeakyRelu.call (blk.w1.call sqrt (Upsampler.call x1)
            (blk.s1.s.call w1))) (blk.s2.s.call w1))) (blk.s3.s.call w1)).concatB
        (blk.trgb.w.call sqrt (LeakyRelu.call (blk.w2.call sqrt
          (LeakyRelu.call (blk.w1.call sqrt (Upsampler.call x2)
            (blk.s1.s.call w2))) (blk.s2.s.call w2))) (blk.s3.s.call w2))) := by
    refine (blk.trgb.w.call_congr sqrt _ _ _ _ hDsh hDcat hbwt hbbt hbkt
      (fun b c i j hb hc hi hj => eD.2 b c i j (by rw [hDsh]; exact hb)
        (by rw [hDsh]; exact hc) (by rw [hDsh]; exact hi)
        (by rw [hDsh]; exact hj)) (fun b i _ => rfl)).trans
      (blk.trgb.w.call_concat_conv sqrt _ _ _ _ hD1 hD2 hM31 hbwt hbbt hbkt)
  have hT1sh : (blk.trgb.w.call sqrt (LeakyRelu.call (blk.w2.call sqrt
      (LeakyRelu.call (blk.w1.call sqrt (Upsampler.call x1) (blk.s1.s.call w1)))
      (blk.s2.s.call w1))) (blk.s3.s.call w1)).shape.1 = B1 := by
    simp [WeightDemodulatedConvolution2D.call_shape, hD1]
  have hTcatsh : (blk.trgb.w.call sqrt (LeakyRelu.call (blk.w2.call sqrt
      (LeakyRelu.call (blk.w1.call sqrt
        ((Upsampler.call x1).concatB (Upsampler.call x2))
        ((blk.s1.s.call w1).concatB (blk.s1.s.call w2))))
      ((blk.s2.s.call w1).concatB (blk.s2.s.call w2))))
      ((blk.s3.s.call w1).concatB (blk.s3.s.call w2))).shape =
      ((Upsampler.call y1).concatB (Upsampler.call y2)).shape := by
    have hUy1s : (Upsampler.call y1).shape = (B1, 3, H * 2, W * 2) := by
      simp [Upsampler.call, hy1]
    have hUy2s : (Upsampler.call y2).shape = (B2, 3, H * 2, W * 2) := by
      simp [Upsampler.call, hy2]
    rw [WeightDemodulatedConvolution2D.call_shape, hDsh, Tensor4.concatB_shape,
      hUy1s, hUy2s, hbbt]
  have hUy1 : (Upsampler.call y1).shape.1 = B1 := by simp [Upsampler.call, hy1]
  refine (Tensor4.add_eqOn (Tensor4.EqOn.refl _) eT hTcatsh).trans
    (Tensor4.EqOn.of_eq (Tensor4.add_concat _ _ _ _ ?_))
  rw [hT1sh, hUy1]

/-- Batch independence of InitialBlock (InitialSkipArchitecture) with the
noise draw pinned to zero. -/
theorem InitialSkipArchitecture.call_concat_initial (blk : InitialSkipArchitecture α)
    (sqrt : α → α) (w1 w2 : Tensor2 α) {B1 B2 Cin Cout S : ℕ}
    (hw1 : w1.shape = (B1, S)) (hw2 : w2.shape = (B2, S))
    (hc1 : blk.c1.shape = (Cin, 4, 4))
    (hbw1 : blk.w1.w.shape = (Cout, Cin, blk.w1.ksize, blk.w1.ksize))
    (hbb1 : blk.w1.b.shape = Cout) (hbk1 : blk.w1.ksize = 2 * blk.w1.pad + 1)
    (hbwt : blk.trgb.w.w.shape = (3, Cout, blk.trgb.w.ksize, blk.trgb.w.ksize))
    (hbbt : blk.trgb.w.b.shape = 3)
    (hbkt : blk.trgb.w.ksize = 2 * blk.trgb.w.pad + 1)
    (sA : ℕ × ℕ × ℕ × ℕ) :
    ((blk.call sqrt (w1.concatB w2) (zeros4 sA)).1).EqOn
      (((blk.call sqrt w1 (zeros4 sA)).1).concatB
        ((blk.call sqrt w2 (zeros4 sA)).1)) ∧
    ((blk.call sqrt (w1.concatB w2) (zeros4 sA)).2).EqOn
      (((blk.call sqrt w1 (zeros4 sA)).2).concatB
        ((blk.call sqrt w2 (zeros4 sA)).2)) := by
  have hS : w2.shape.2 = w1.shape.2 := by rw [hw1, hw2]
  have hM1 : (blk.s1.s.call w1).shape.1 = B1 := by
    simp [EqualizedLinear.call, hw1]
  have hM21 : (blk.s2.s.call w1).shape.1 = B1 := by
    simp [EqualizedLinear.call, hw1]
  simp only [InitialSkipArchitecture.call, StyleAffineTransform.call, ToRGB.call]
  rw [EqualizedLinear.call_concat_linear blk.s1.s w1 w2 hS,
    EqualizedLinear.call_concat_linear blk.s2.s w1 w2 hS]
  simp only [NoiseAdder.call_zeros]
  have hbcCat : (⟨((w1.concatB w2).shape.1, blk.c1.shape.1, blk.c1.shape.2.1,
      blk.c1.shape.2.2), fun _ c i j => blk.c1.data c i j⟩ : Tensor4 α).shape =
      (B1 + B2, Cin, 4, 4) := by
    simp [Tensor2.concatB, hw1, hw2, hc1]
  have hbc1 : (⟨(w1.shape.1, blk.c1.shape.1, blk.c1.shape.2.1, blk.c1.shape.2.2),
      fun _ c i j => blk.c1.data c i j⟩ : Tensor4 α).shape = (B1, Cin, 4, 4) := by
    simp [hw1, hc1]
  have hbc2 : (⟨(w2.shape.1, blk.c1.shape.1, blk.c1.shape.2.1, blk.c1.shape.2.2),
      fun _ c i j => blk.c1.data c i j⟩ : Tensor4 α).shape = (B2, Cin, 4, 4) := by
    simp [hw2, hc1]
  have eA : (blk.w1.call sqrt (⟨((w1.concatB w2).shape.1, blk.c1.shape.1,
      blk.c1.shape.2.1, blk.c1.shape.2.2), fun _ c i j => blk.c1.data c i j⟩ :
      Tensor4 α) ((blk.s1.s.call w1).concatB (blk.s1.s.call w2))).EqOn
      ((blk.w1.call sqrt (⟨(w1.shape.1, blk.c1.shape.1, blk.c1.shape.2.1,
          blk.c1.shape.2.2), fun _ c i j => blk.c1.data c i j⟩ : Tensor4 α)
        (blk.s1.s.call w1)).concatB
       (blk.w1.call sqrt (⟨(w2.shape.1, blk.c1.shape.1, blk.c1.shape.2.1,
          blk.c1.shape.2.2), fun _ c i j => blk.c1.data c i j⟩ : Tensor4 α)
        (blk.s1.s.call w2))) := by
    refine (blk.w1.call_congr sqrt _ _ _ _ hbcCat ?_ hbw1 hbb1 hbk1 ?_
      (fun b i _ => rfl)).trans
      (blk.w1.call_concat_conv sqrt _ _ _ _ hbc1 hbc2 hM1 hbw1 hbb1 hbk1)
    · simp [Tensor4.concatB_shape, hw1, hw2, hc1]
    · intro b c i j hb hc hi hj
      simp [Tensor4.concatB]
  have hA1 : (blk.w1.call sqrt (⟨(w1.shape.1, blk.c1.shape.1, blk.c1.shape.2.1,
      blk.c1.shape.2.2), fun _ c i j => blk.c1.data c i j⟩ : Tensor4 α)
      (blk.s1.s.call w1)).shape = (B1, Cout, 4, 4) := by
    simp [WeightDemodulatedConvolution2D.call_shape, hw1, hc1, hbb1]
  have hA2 : (blk.w1.call sqrt (⟨(w2.shape.1, blk.c1.shape.1, blk.c1.shape.2.1,
      blk.c1.shape.2.2), fun _ c i j => blk.c1.data c i j⟩ : Tensor4 α)
      (blk.s1.s.call w2)).shape = (B2, Cout, 4, 4) := by
    simp [WeightDemodulatedConvolution2D.call_shape, hw2, hc1, hbb1]
  have eB : (LeakyRelu.call (blk.w1.call sqrt (⟨((w1.concatB w2).shape.1,
      blk.c1.shape.1, blk.c1.shape.2.1, blk.c1.shape.2.2),
      fun _ c i j => blk.c1.data c i j⟩ : Tensor4 α)
      ((blk.s1.s.call w1).concatB (blk.s1.s.call w2)))).EqOn
      ((LeakyRelu.call (blk.w1.call sqrt (⟨(w1.shape.1, blk.c1.shape.1,
          blk.c1.shape.2.1, blk.c1.shape.2.2),
          fun _ c i j => blk.c1.data c i j⟩ : Tensor4 α)
        (blk.s1.s.call w1))).concatB
       (LeakyRelu.call (blk.w1.call sqrt (⟨(w2.shape.1, blk.c1.shape.1,
          blk.c1.shape.2.1, blk.c1.shape.2.2),
          fun _ c i j => blk.c1.data c i j⟩ : Tensor4 α)
        (blk.s1.s.call w2)))) :=
    (LeakyRelu.call_eqOn eA).trans (Tensor4.EqOn.of_eq (LeakyRelu.call_concat_leaky _ _))
  refine ⟨eB, ?_⟩
  have hLsh : (LeakyRelu.call (blk.w1.call sqrt (⟨((w1.concatB w2).shape.1,
      blk.c1.shape.1, blk.c1.shape.2.1, blk.c1.shape.2.2),
      fun _ c i j => blk.c1.data c i j⟩ : Tensor4 α)
      ((blk.s1.s.call w1).concatB (blk.s1.s.call w2)))).shape =
      (B1 + B2, Cout, 4, 4) := by
    simp [LeakyRelu.call, WeightDemodulatedConvolution2D.call_shape,
      Tensor2.concatB, hw1, hw2, hc1, hbb1]
  have hLA1 : (LeakyRelu.call (blk.w1.call sqrt (⟨(w1.shape.1, blk.c1.shape.1,
      blk.c1.shape.2.1, blk.c1.shape.2.2), fun _ c i j => blk.c1.data c i j⟩ :
      Tensor4 α) (blk.s1.s.call w1))).shape = (B1, Cout, 4, 4) := by
    simpa [LeakyRelu.call] using hA1
  have hLA2 : (LeakyRelu.call (blk.w1.call sqrt (⟨(w2.shape.1, blk.c1.shape.1,
      blk.c1.shape.2.1, blk.c1.shape.2.2), fun _ c i j => blk.c1.data c i j⟩ :
      Tensor4 α) (blk.s1.s.call w2))).shape = (B2, Cout, 4, 4) := by
    simpa [LeakyRelu.call] using hA2
  refine (blk.trgb.w.call_congr sqrt _ _ _ _ hLsh ?_ hbwt hbbt hbkt
    (fun b c i j hb hc hi hj => eB.2 b c i j (by rw [hLsh]; exact hb)
      (by rw [hLsh]; exact hc) (by rw [hLsh]; exact hi)
      (by rw [hLsh]; exact hj)) (fun b i _ => rfl)).trans
    (blk.trgb.w.call_concat_conv sqrt _ _ _ _ hLA1 hLA2 hM21 hbwt hbbt hbkt)
  simp [Tensor4.concatB_shape, hLA1, hLA2]

end BlockBatchIndependence

section ShapeLemmas

variable {α : Type*} [LinearOrderedField α]

theorem WeightDemodulatedConvolution2D.convStage_shape
    (l : WeightDemodulatedConvolution2D α) (sqrt : α → α) (x : Tensor4 α)
    (y : Tensor2 α) :
    (l.convStage sqrt x y).shape =
      (1, x.shape.1 * l.b.shape, x.shape.2.2.1 + 2 * l.pad + 1 - l.ksize,
        x.shape.2.2.2 + 2 * l.pad + 1 - l.ksize) := rfl

end ShapeLemmas

section Claims

/-- C4: for every input of shape (B, Cin, H, W), the modulated convolution
returns a tensor of shape (B, Cout, H, W); the spatial size is preserved
because the input is edge-padded by (ksize - 1) / 2 on each side (pad 1 for
the 3x3 kernel, pad 0 for the pointwise kernel) before the stride-1 grouped
convolution, whose result is exactly (1, B * Cout, H, W) before the final
reshape. -/
theorem c4_same_padding_shape {α : Type*} [LinearOrderedField α] (sqrt : α → α)
    (Cin Cout : ℕ) (pointwise demod : Bool) (gain : α)
    (wdata : ℕ → ℕ → ℕ → ℕ → α) (bdata : ℕ → α) (x : Tensor4 α) (y : Tensor2 α)
    {B H W : ℕ} (hx : x.shape = (B, Cin, H, W)) :
    ((WeightDemodulatedConvolution2D.make sqrt Cin Cout pointwise demod gain
        wdata bdata).call sqrt x y).shape = (B, Cout, H, W) ∧
    ((WeightDemodulatedConvolution2D.make sqrt Cin Cout pointwise demod gain
        wdata bdata).convStage sqrt x y).shape = (1, B * Cout, H, W) ∧
    (WeightDemodulatedConvolution2D.make sqrt Cin Cout pointwise demod gain
        wdata bdata).pad =
      ((WeightDemodulatedConvolution2D.make sqrt Cin Cout pointwise demod gain
        wdata bdata).ksize - 1) / 2 := by
  cases pointwise <;>
    exact ⟨by simp [WeightDemodulatedConvolution2D.call_shape,
        WeightDemodulatedConvolution2D.make, hx],
      by rw [WeightDemodulatedConvolution2D.convStage_shape]
         simp [WeightDemodulatedConvolution2D.make, hx],
      by simp [WeightDemodulatedConvolution2D.make]⟩

/-- C4 witness: a concrete 3x3 configuration over the rationals. -/
theorem c4_same_padding_shape_witness :
    ((⟨(2, 3, 5, 7), fun _ _ _ _ => 0⟩ : Tensor4 ℚ).shape = (2, 3, 5, 7)) ∧
    ((WeightDemodulatedConvolution2D.make id 3 4 false true 1
        (fun _ _ _ _ => 0) (fun _ => 0)).call id
        (⟨(2, 3, 5, 7), fun _ _ _ _ => 0⟩ : Tensor4 ℚ)
        (⟨(2, 3), fun _ _ => 1⟩ : Tensor2 ℚ)).shape = (2, 4, 5, 7) := by
  refine ⟨rfl, ?_⟩
  exact (c4_same_padding_shape id 3 4 false true 1 (fun _ _ _ _ => 0) (fun _ => 0)
    (⟨(2, 3, 5, 7), fun _ _ _ _ => 0⟩ : Tensor4 ℚ)
    (⟨(2, 3), fun _ _ => 1⟩ : Tensor2 ℚ) rfl).1

/-- C5: the RGBAccumulator returned by an UpsampleBlock is exactly the
incoming accumulator upsampled plus the RGB projection of the feature map
produced after the second convolution, noise and nonlinearity (the first
output component); moreover the incoming accumulator enters only additively
through its upsampling: changing it changes the output by exactly the
difference of the upsampled accumulators. -/
theorem c5_skip_upsample_then_add {α : Type*} [LinearOrderedField α]
    (blk : SkipArchitecture α) (sqrt : α → α) (x y : Tensor4 α) (w : Tensor2 α)
    (noise1 noise2 : Tensor4 α) :
    (blk.call sqrt x y w noise1 noise2).2 =
      (Upsampler.call y).add (blk.trgb.call sqrt
        (blk.call sqrt x y w noise1 noise2).1 (blk.s3.call w)) ∧
    ∀ (y' : Tensor4 α) (b c i j : ℕ),
      (blk.call sqrt x y w noise1 noise2).2.data b c i j -
          (blk.call sqrt x y' w noise1 noise2).2.data b c i j =
        (Upsampler.call y).data b c i j - (Upsampler.call y').data b c i j := by
  refine ⟨rfl, fun y' b c i j => ?_⟩
  simp only [SkipArchitecture.call, Tensor4.add]
  ring

/-- C6: the demodulation divisor is strictly positive for every weight
tensor, modulation tensor, batch size, sample and output channel — also
when the modulation row is identically zero — because the summed squares
are nonnegative and the epsilon 1e-8 is positive; the division in the
demodulation step is therefore always well defined. -/
theorem c6_demod_divisor_pos (l : WeightDemodulatedConvolution2D ℝ)
    (y : Tensor2 ℝ) (B b o : ℕ) :
    0 < demodDenom Real.sqrt (1e-8) (modW l.w y B) b o := by
  unfold demodDenom
  apply Real.sqrt_pos.mpr
  positivity

/-- C9: a single UpsampleBlock invocation consumes exactly one style vector
and all three affine style projections are applied to that same vector: the
call is the diagonal of the three-style variant. -/
theorem c9_single_style_vector {α : Type*} [LinearOrderedField α]
    (blk : SkipArchitecture α) (sqrt : α → α) (x y : Tensor4 α) (w : Tensor2 α)
    (noise1 noise2 : Tensor4 α) :
    blk.call sqrt x y w noise1 noise2 =
      blk.callMulti sqrt x y w w w noise1 noise2 := rfl

/-- C8: an InitialBlock with size 512, in 512, out 512 applied to a batch of
two style vectors of dimension 512 yields a feature map of shape
(2, 512, 4, 4) and an accumulator of shape (2, 3, 4, 4); feeding that output
and another style vector through an UpsampleBlock with out 256 yields shapes
(2, 256, 8, 8) and (2, 3, 8, 8). -/
theorem c8_end_to_end_shapes {α : Type*} [LinearOrderedField α] (sqrt : α → α)
    (c1d : ℕ → ℕ → ℕ → α) (s1w : ℕ → ℕ → α) (s1b : ℕ → α)
    (w1w : ℕ → ℕ → ℕ → ℕ → α) (w1b : ℕ → α) (n1s : ℕ → α)
    (s2w : ℕ → ℕ → α) (s2b : ℕ → α) (tw : ℕ → ℕ → ℕ → ℕ → α) (tb : ℕ → α)
    (u1w : ℕ → ℕ → α) (u1b : ℕ → α) (v1w : ℕ → ℕ → ℕ → ℕ → α) (v1b : ℕ → α)
    (m1s : ℕ → α) (u2w : ℕ → ℕ → α) (u2b : ℕ → α)
    (v2w : ℕ → ℕ → ℕ → ℕ → α) (v2b : ℕ → α) (m2s : ℕ → α)
    (u3w : ℕ → ℕ → α) (u3b : ℕ → α) (tw2 : ℕ → ℕ → ℕ → ℕ → α) (tb2 : ℕ → α)
    (wd wd2 : ℕ → ℕ → α) (nI n1 n2 : Tensor4 α) :
    (((InitialSkipArchitecture.make sqrt 512 512 512 c1d s1w s1b w1w w1b n1s
        s2w s2b tw tb).call sqrt (⟨(2, 512), wd⟩ : Tensor2 α) nI).1).shape =
      (2, 512, 4, 4) ∧
    (((InitialSkipArchitecture.make sqrt 512 512 512 c1d s1w s1b w1w w1b n1s
        s2w s2b tw tb).call sqrt (⟨(2, 512), wd⟩ : Tensor2 α) nI).2).shape =
      (2, 3, 4, 4) ∧
    (((SkipArchitecture.make sqrt 512 512 256 u1w u1b v1w v1b m1s u2w u2b v2w
        v2b m2s u3w u3b tw2 tb2).call sqrt
        ((InitialSkipArchitecture.make sqrt 512 512 512 c1d s1w s1b w1w w1b n1s
          s2w s2b tw tb).call sqrt (⟨(2, 512), wd⟩ : Tensor2 α) nI).1
        ((InitialSkipArchitecture.make sqrt 512 512 512 c1d s1w s1b w1w w1b n1s
          s2w s2b tw tb).call sqrt (⟨(2, 512), wd⟩ : Tensor2 α) nI).2
        (⟨(2, 512), wd2⟩ : Tensor2 α) n1 n2).1).shape = (2, 256, 8, 8) ∧
    (((SkipArchitecture.make sqrt 512 512 256 u1w u1b v1w v1b m1s u2w u2b v2w
        v2b m2s u3w u3b tw2 tb2).call sqrt
        ((InitialSkipArchitecture.make sqrt 512 512 512 c1d s1w s1b w1w w1b n1s
          s2w s2b tw tb).call sqrt (⟨(2, 512), wd⟩ : Tensor2 α) nI).1
        ((InitialSkipArchitecture.make sqrt 512 512 512 c1d s1w s1b w1w w1b n1s
          s2w s2b tw tb).call sqrt (⟨(2, 512), wd⟩ : Tensor2 α) nI).2
        (⟨(2, 512), wd2⟩ : Tensor2 α) n1 n2).2).shape = (2, 3, 8, 8) :=
  ⟨rfl, rfl, rfl, rfl⟩

/-- C3: with demodulation enabled, the all-ones modulation vector, and the
epsilon term dropped, the L2 norm of each output channel of the demodulated
weights across (Cin, k, k) is exactly 1 over the reals, provided the channel
is not identically zero. -/
theorem c3_demodulation_identity (w : Tensor4 ℝ) (y : Tensor2 ℝ)
    {B Cout Cin k : ℕ} (hw : w.shape = (Cout, Cin, k, k)) (b o : ℕ)
    (hy : ∀ i, i < Cin → y.data b i = 1)
    (hnz : 0 < ∑ c ∈ Finset.range Cin, ∑ p ∈ Finset.range k,
      ∑ q ∈ Finset.range k, w.data o c p q ^ 2) :
    Real.sqrt (∑ c ∈ Finset.range Cin, ∑ p ∈ Finset.range k,
      ∑ q ∈ Finset.range k,
        (demodStep Real.sqrt 0 (modW w y B)).data b o c p q ^ 2) = 1 := by
  have hsum : (∑ i ∈ Finset.range Cin, ∑ p ∈ Finset.range k,
      ∑ q ∈ Finset.range k, (w.data o i p q * y.data b i) ^ 2) =
      ∑ c ∈ Finset.range Cin, ∑ p ∈ Finset.range k, ∑ q ∈ Finset.range k,
        w.data o c p q ^ 2 := by
    refine Finset.sum_congr rfl fun i hi => Finset.sum_congr rfl fun p hp =>
      Finset.sum_congr rfl fun q hq => ?_
    rw [hy i (Finset.mem_range.mp hi), mul_one]
  have hdenom : demodDenom Real.sqrt 0 (modW w y B) b o =
      Real.sqrt (∑ c ∈ Finset.range Cin, ∑ p ∈ Finset.range k,
        ∑ q ∈ Finset.range k, w.data o c p q ^ 2) := by
    simp only [demodDenom, modW, hw]
    rw [add_zero, hsum]
  have key : (∑ c ∈ Finset.range Cin, ∑ p ∈ Finset.range k,
      ∑ q ∈ Finset.range k,
        (demodStep Real.sqrt 0 (modW w y B)).data b o c p q ^ 2) = 1 := by
    have hterm : ∀ c ∈ Finset.range Cin, ∀ p ∈ Finset.range k,
        ∀ q ∈ Finset.range k,
        (demodStep Real.sqrt 0 (modW w y B)).data b o c p q ^ 2 =
          w.data o c p q ^ 2 /
            (∑ c' ∈ Finset.range Cin, ∑ p' ∈ Finset.range k,
              ∑ q' ∈ Finset.range k, w.data o c' p' q' ^ 2) := by
      intro c hc p hp q hq
      simp only [demodStep]
      rw [hdenom]
      simp only [modW]
      rw [hy c (Finset.mem_range.mp hc), mul_one, div_pow,
        Real.sq_sqrt (le_of_lt hnz)]
    calc (∑ c ∈ Finset.range Cin, ∑ p ∈ Finset.range k,
        ∑ q ∈ Finset.range k,
          (demodStep Real.sqrt 0 (modW w y B)).data b o c p q ^ 2)
        = ∑ c ∈ Finset.range Cin, ∑ p ∈ Finset.range k,
            ∑ q ∈ Finset.range k, w.data o c p q ^ 2 /
              (∑ c' ∈ Finset.range Cin, ∑ p' ∈ Finset.range k,
                ∑ q' ∈ Finset.range k, w.data o c' p' q' ^ 2) := by
          refine Finset.sum_congr rfl fun c hc => Finset.sum_congr rfl fun p hp =>
            Finset.sum_congr rfl fun q hq => hterm c hc p hp q hq
      _ = 1 := by
          simp only [← Finset.sum_div]
          exact div_self (ne_of_gt hnz)
  rw [key, Real.sqrt_one]

/-- C3 witness: a 1 x 1 x 1 x 1 weight tensor of value 1 with the all-ones
modulation. -/
theorem c3_demodulation_identity_witness :
    Real.sqrt (∑ c ∈ Finset.range 1, ∑ p ∈ Finset.range 1,
      ∑ q ∈ Finset.range 1,
        (demodStep Real.sqrt 0 (modW (⟨(1, 1, 1, 1), fun _ _ _ _ => 1⟩ : Tensor4 ℝ)
          (⟨(1, 1), fun _ _ => 1⟩ : Tensor2 ℝ) 1)).data 0 0 c p q ^ 2) = 1 :=
  c3_demodulation_identity _ _ rfl 0 0 (fun _ _ => rfl) (by simp)

/-- The claim-side variant of the call equals the source call applied to a
layer whose stored weight is pre-scaled by the constant c. -/
theorem WeightDemodulatedConvolution2D.callScaled_eq {α : Type*}
    [LinearOrderedField α] (l : WeightDemodulatedConvolution2D α)
    (sqrt : α → α) (x : Tensor4 α) (y : Tensor2 α) :
    l.callScaled sqrt x y =
      ({ demod := l.demod, ksize := l.ksize, pad := l.pad, c := l.c,
         w := ⟨l.w.shape, fun o i p q => l.c * l.w.data o i p q⟩, b := l.b } :
        WeightDemodulatedConvolution2D α).call sqrt x y := rfl

/-- The ToRGB configuration the spec assigns the scale sqrt(1 / Cin) to:
pointwise, demodulation off, gain 1, here with Cin = 4 and all weights 1. -/
noncomputable def c1Layer : WeightDemodulatedConvolution2D ℝ :=
  WeightDemodulatedConvolution2D.make Real.sqrt 4 1 true false 1
    (fun _ _ _ _ => 1) (fun _ => 0)

def c1Input : Tensor4 ℝ := ⟨(1, 4, 1, 1), fun _ _ _ _ => 1⟩

def c1Mod : Tensor2 ℝ := ⟨(1, 4), fun _ _ => 1⟩

/-- C1: the fixed fan-in scale constant c computed in __init__ is never read
by __call__: on the all-ones pointwise configuration with Cin = 4 the call
returns 4, although c = 1/2, so the claimed output — the convolution with
the c-scaled weights — would be 2.  The source convolves with the raw
modulated weights and leaves self.c dead. -/
theorem c1_scale_constant_unused :
    (c1Layer.call Real.sqrt c1Input c1Mod).data 0 0 0 0 = 4 ∧
    c1Layer.c = 1 / 2 ∧
    (c1Layer.callScaled Real.sqrt c1Input c1Mod).data 0 0 0 0 = 2 := by
  have hc : c1Layer.c = 1 / 2 := by
    have h1 : c1Layer.c = Real.sqrt (1 / 4) := by
      simp [c1Layer, WeightDemodulatedConvolution2D.make]
    rw [h1, show (1 / 4 : ℝ) = (1 / 2) ^ 2 by norm_num,
      Real.sqrt_sq (by norm_num : (0 : ℝ) ≤ 1 / 2)]
  refine ⟨?_, hc, ?_⟩
  · rw [c1Layer.call_data Real.sqrt c1Input c1Mod rfl rfl rfl rfl
      (by norm_num) (by norm_num) (by norm_num) (by norm_num)]
    simp [c1Layer, c1Input, c1Mod, WeightDemodulatedConvolution2D.make, modW,
      Finset.sum_range_succ]
  · rw [WeightDemodulatedConvolution2D.callScaled_eq]
    rw [WeightDemodulatedConvolution2D.call_data _ Real.sqrt c1Input c1Mod rfl rfl
      rfl rfl (by norm_num)
      (by norm_num [c1Layer, WeightDemodulatedConvolution2D.make])
      (by norm_num) (by norm_num)]
    simp [c1Layer, c1Input, c1Mod, WeightDemodulatedConvolution2D.make, modW,
      Finset.sum_range_succ]
    rw [show (4 : ℝ) = (2 : ℝ) ^ 2 by norm_num,
      Real.sqrt_sq (by norm_num : (0 : ℝ) ≤ 2)]
    norm_num

/-- C2: batch independence with the noise draws fixed to zero.  For any two
batches, running the concatenated batch through an UpsampleBlock or an
InitialBlock and slicing equals running the batches separately: both output
tensors of each block agree, on every in-range index, with the
concatenation of the separate runs. -/
theorem c2_batch_independence {α : Type*} [LinearOrderedField α]
    (blkS : SkipArchitecture α) (blkI : InitialSkipArchitecture α)
    (sqrt : α → α) (x1 x2 y1 y2 : Tensor4 α) (w1 w2 v1 v2 : Tensor2 α)
    {B1 B2 Cin Cout H W S B1i B2i Cini Couti Si : ℕ}
    (hx1 : x1.shape = (B1, Cin, H, W)) (hx2 : x2.shape = (B2, Cin, H, W))
    (hy1 : y1.shape = (B1, 3, H, W)) (hy2 : y2.shape = (B2, 3, H, W))
    (hw1 : w1.shape = (B1, S)) (hw2 : w2.shape = (B2, S))
    (hbw1 : blkS.w1.w.shape = (Cout, Cin, blkS.w1.ksize, blkS.w1.ksize))
    (hbb1 : blkS.w1.b.shape = Cout)
    (hbk1 : blkS.w1.ksize = 2 * blkS.w1.pad + 1)
    (hbw2 : blkS.w2.w.shape = (Cout, Cout, blkS.w2.ksize, blkS.w2.ksize))
    (hbb2 : blkS.w2.b.shape = Cout)
    (hbk2 : blkS.w2.ksize = 2 * blkS.w2.pad + 1)
    (hbwt : blkS.trgb.w.w.shape = (3, Cout, blkS.trgb.w.ksize, blkS.trgb.w.ksize))
    (hbbt : blkS.trgb.w.b.shape = 3)
    (hbkt : blkS.trgb.w.ksize = 2 * blkS.trgb.w.pad + 1)
    (hv1 : v1.shape = (B1i, Si)) (hv2 : v2.shape = (B2i, Si))
    (hc1 : blkI.c1.shape = (Cini, 4, 4))
    (hiw1 : blkI.w1.w.shape = (Couti, Cini, blkI.w1.ksize, blkI.w1.ksize))
    (hib1 : blkI.w1.b.shape = Couti)
    (hik1 : blkI.w1.ksize = 2 * blkI.w1.pad + 1)
    (hiwt : blkI.trgb.w.w.shape = (3, Couti, blkI.trgb.w.ksize, blkI.trgb.w.ksize))
    (hibt : blkI.trgb.w.b.shape = 3)
    (hikt : blkI.trgb.w.ksize = 2 * blkI.trgb.w.pad + 1)
    (sA sB sC : ℕ × ℕ × ℕ × ℕ) :
    ((blkS.call sqrt (x1.concatB x2) (y1.concatB y2) (w1.concatB w2)
        (zeros4 sA) (zeros4 sB)).1).EqOn
      (((blkS.call sqrt x1 y1 w1 (zeros4 sA) (zeros4 sB)).1).concatB
        ((blkS.call sqrt x2 y2 w2 (zeros4 sA) (zeros4 sB)).1)) ∧
    ((blkS.call sqrt (x1.concatB x2) (y1.concatB y2) (w1.concatB w2)
        (zeros4 sA) (zeros4 sB)).2).EqOn
      (((blkS.call sqrt x1 y1 w1 (zeros4 sA) (zeros4 sB)).2).concatB
        ((blkS.call sqrt x2 y2 w2 (zeros4 sA) (zeros4 sB)).2)) ∧
    ((blkI.call sqrt (v1.concatB v2) (zeros4 sC)).1).EqOn
      (((blkI.call sqrt v1 (zeros4 sC)).1).concatB
        ((blkI.call sqrt v2 (zeros4 sC)).1)) ∧
    ((blkI.call sqrt (v1.concatB v2) (zeros4 sC)).2).EqOn
      (((blkI.call sqrt v1 (zeros4 sC)).2).concatB
        ((blkI.call sqrt v2 (zeros4 sC)).2)) := by
  obtain ⟨h1, h2⟩ := blkS.call_concat_block sqrt x1 x2 y1 y2 w1 w2 hx1 hx2 hy1 hy2
    hw1 hw2 hbw1 hbb1 hbk1 hbw2 hbb2 hbk2 hbwt hbbt hbkt sA sB
  obtain ⟨h3, h4⟩ := blkI.call_concat_initial sqrt v1 v2 hv1 hv2 hc1 hiw1 hib1 hik1
    hiwt hibt hikt sC
  exact ⟨h1, h2, h3, h4⟩

def c2BlockS : SkipArchitecture ℚ :=
  SkipArchitecture.make id 1 1 1 (fun _ _ => 0) (fun _ => 0)
    (fun _ _ _ _ => 0) (fun _ => 0) (fun _ => 0) (fun _ _ => 0) (fun _ => 0)
    (fun _ _ _ _ => 0) (fun _ => 0) (fun _ => 0) (fun _ _ => 0) (fun _ => 0)
    (fun _ _ _ _ => 0) (fun _ => 0)

def c2BlockI : InitialSkipArchitecture ℚ :=
  InitialSkipArchitecture.make id 1 1 1 (fun _ _ _ => 0) (fun _ _ => 0)
    (fun _ => 0) (fun _ _ _ _ => 0) (fun _ => 0) (fun _ => 0) (fun _ _ => 0)
    (fun _ => 0) (fun _ _ _ _ => 0) (fun _ => 0)

def c2X : Tensor4 ℚ := ⟨(1, 1, 1, 1), fun _ _ _ _ => 0⟩

def c2Y : Tensor4 ℚ := ⟨(1, 3, 1, 1), fun _ _ _ _ => 0⟩

def c2W : Tensor2 ℚ := ⟨(1, 1), fun _ _ => 0⟩

/-- C2 witness: both blocks on a concrete pair of singleton batches over the
rationals. -/
theorem c2_batch_independence_witness :
    ((c2BlockS.call id (c2X.concatB c2X) (c2Y.concatB c2Y) (c2W.concatB c2W)
        (zeros4 (2, 1, 2, 2)) (zeros4 (2, 1, 2, 2))).1).EqOn
      (((c2BlockS.call id c2X c2Y c2W (zeros4 (2, 1, 2, 2))
          (zeros4 (2, 1, 2, 2))).1).concatB
        ((c2BlockS.call id c2X c2Y c2W (zeros4 (2, 1, 2, 2))
          (zeros4 (2, 1, 2, 2))).1)) ∧
    ((c2BlockS.call id (c2X.concatB c2X) (c2Y.concatB c2Y) (c2W.concatB c2W)
        (zeros4 (2, 1, 2, 2)) (zeros4 (2, 1, 2, 2))).2).EqOn
      (((c2BlockS.call id c2X c2Y c2W (zeros4 (2, 1, 2, 2))
          (zeros4 (2, 1, 2, 2))).2).concatB
        ((c2BlockS.call id c2X c2Y c2W (zeros4 (2, 1, 2, 2))
          (zeros4 (2, 1, 2, 2))).2)) ∧
    ((c2BlockI.call id (c2W.concatB c2W) (zeros4 (2, 1, 4, 4))).1).EqOn
      (((c2BlockI.call id c2W (zeros4 (2, 1, 4, 4))).1).concatB
        ((c2BlockI.call id c2W (zeros4 (2, 1, 4, 4))).1)) ∧
    ((c2BlockI.call id (c2W.concatB c2W) (zeros4 (2, 1, 4, 4))).2).EqOn
      (((c2BlockI.call id c2W (zeros4 (2, 1, 4, 4))).2).concatB
        ((c2BlockI.call id c2W (zeros4 (2, 1, 4, 4))).2)) :=
  c2_batch_independence c2BlockS c2BlockI id c2X c2X c2Y c2Y c2W c2W c2W c2W
    rfl rfl rfl rfl rfl rfl rfl rfl rfl rfl rfl rfl rfl rfl rfl rfl rfl rfl
    rfl rfl rfl rfl rfl rfl (2, 1, 2, 2) (2, 1, 2, 2) (2, 1, 4, 4)

end Claims

section GammaLemmas

/-- On the all-linear region u <= 0.0031308 the two transfer functions
invert each other exactly (12.92 * 0.0031308 = 0.040449936 <= 0.04045, so
the encoded value falls into the linear branch of the decoder). -/
theorem gamma_rf_lin (u : ℝ) (h : u ≤ 0.0031308) :
    gamma_reverse (gamma_forward u) = u := by
  unfold gamma_forward
  rw [if_pos h]
  unfold gamma_reverse
  rw [if_pos (by nlinarith : (12.92 : ℝ) * u ≤ 0.04045)]
  field_simp

/-- When the encoder takes the power branch and its output exceeds the
decoder threshold 0.04045, decoding inverts encoding exactly. -/
theorem gamma_rf_pow (u : ℝ) (h1 : 0.0031308 < u)
    (h2 : 0.04045 < gamma_forward u) : gamma_reverse (gamma_forward u) = u := by
  have hu : (0 : ℝ) ≤ u := by linarith
  unfold gamma_forward at h2 ⊢
  rw [if_neg (not_le.mpr h1)] at h2 ⊢
  unfold gamma_reverse
  rw [if_neg (not_le.mpr h2)]
  have hb : (1.055 * u ^ ((1 : ℝ) / 2.4) - 0.055 + 0.055) / 1.055 =
      u ^ ((1 : ℝ) / 2.4) := by ring
  rw [hb, ← Real.rpow_mul hu]
  norm_num

/-- On u <= 12.92 * 0.0031308 both compositions stay in the linear
branches and decoding then encoding is exact. -/
theorem gamma_fr_lin (u : ℝ) (h : u ≤ 0.040449936) :
    gamma_forward (gamma_reverse u) = u := by
  unfold gamma_reverse
  rw [if_pos (by linarith : u ≤ 0.04045)]
  unfold gamma_forward
  rw [if_pos (by rw [div_le_iff₀ (by norm_num : (0 : ℝ) < 12.92)]; linarith :
    u / 12.92 ≤ 0.0031308)]
  field_simp

/-- When the decoder takes the power branch and its output exceeds the
encoder threshold 0.0031308, encoding inverts decoding exactly. -/
theorem gamma_fr_pow (u : ℝ) (h1 : 0.04045 < u)
    (h2 : 0.0031308 < gamma_reverse u) : gamma_forward (gamma_reverse u) = u := by
  unfold gamma_reverse at h2 ⊢
  rw [if_neg (not_le.mpr h1)] at h2 ⊢
  unfold gamma_forward
  rw [if_neg (not_le.mpr h2)]
  have hb : (0 : ℝ) ≤ (u + 0.055) / 1.055 := by positivity
  rw [← Real.rpow_mul hb]
  norm_num
  field_simp
  ring

theorem rint_intCast (z : ℤ) : rint (z : ℝ) = z := by
  unfold rint
  rw [Int.floor_intCast]
  rw [if_pos (by norm_num : (z : ℝ) - z < 1 / 2)]

/-- The transcendental comparison settling the power-branch threshold for
the smallest 8-bit sample, n = 11, that decodes through the power branch:
((11/255 + 0.055) / 1.055) ^ 2.4 > 0.0031308, proved by raising both sides
to the fifth power and comparing the resulting rationals exactly. -/
theorem gamma_reverse_eleven_gt :
    (0.0031308 : ℝ) < (((11 : ℝ) / 255 + 0.055) / 1.055) ^ (2.4 : ℝ) := by
  set t : ℝ := ((11 : ℝ) / 255 + 0.055) / 1.055 with ht
  have htpos : (0 : ℝ) < t := by rw [ht]; norm_num
  have hpow : (t ^ (2.4 : ℝ)) ^ (5 : ℕ) = t ^ (12 : ℕ) := by
    rw [← Real.rpow_natCast (t ^ (2.4 : ℝ)) 5, ← Real.rpow_mul (le_of_lt htpos),
      ← Real.rpow_natCast t 12]
    norm_num
  by_contra hcon
  push_neg at hcon
  have h5 : (t ^ (2.4 : ℝ)) ^ (5 : ℕ) ≤ (0.0031308 : ℝ) ^ (5 : ℕ) :=
    pow_le_pow_left₀ (Real.rpow_nonneg (le_of_lt htpos) _) hcon 5
  rw [hpow] at h5
  have hlt : (0.0031308 : ℝ) ^ (5 : ℕ) < t ^ (12 : ℕ) := by
    rw [ht]
    norm_num
  linarith

end GammaLemmas

section ImageClaims

/-- C7: for every 8-bit sample n the save-after-load round trip reproduces
n exactly over the reals — in particular within one level — and the same
holds entrywise for a whole (height, width, channel) image through the
transposes of load_image and to_pil_image. -/
theorem c7_color_round_trip (n : ℕ) (hn : n ≤ 255) :
    saveLoadPixel n = (n : ℤ) ∧ |saveLoadPixel n - (n : ℤ)| ≤ 1 ∧
    ∀ (x : ℕ → ℕ → ℕ → ℕ) (i j c : ℕ), x i j c = n →
      saveArray (loadArray x) i j c = (n : ℤ) := by
  have hfr : gamma_forward (gamma_reverse ((n : ℝ) / 255)) = (n : ℝ) / 255 := by
    rcases le_or_lt n 10 with h10 | h11
    · refine gamma_fr_lin _ ?_
      have : (n : ℝ) ≤ 10 := by exact_mod_cast h10
      nlinarith
    · have hn11 : (11 : ℝ) ≤ (n : ℝ) := by exact_mod_cast h11
      have hgt : (0.04045 : ℝ) < (n : ℝ) / 255 := by nlinarith
      refine gamma_fr_pow _ hgt ?_
      unfold gamma_reverse
      rw [if_neg (not_le.mpr hgt)]
      have hbase : (((11 : ℝ) / 255 + 0.055) / 1.055) ≤
          (((n : ℝ) / 255 + 0.055) / 1.055) := by gcongr
      calc (0.0031308 : ℝ)
          < (((11 : ℝ) / 255 + 0.055) / 1.055) ^ (2.4 : ℝ) :=
            gamma_reverse_eleven_gt
        _ ≤ (((n : ℝ) / 255 + 0.055) / 1.055) ^ (2.4 : ℝ) :=
            Real.rpow_le_rpow (by norm_num) hbase (by norm_num)
  have hmain : saveLoadPixel n = (n : ℤ) := by
    unfold saveLoadPixel savePixel loadPixel rgb_to_srgb srgb_to_rgb
    rw [hfr, div_mul_cancel₀ _ (by norm_num : (255 : ℝ) ≠ 0)]
    rw [show ((n : ℕ) : ℝ) = ((n : ℤ) : ℝ) by norm_num, rint_intCast]
    unfold clip8
    have h255 : (n : ℤ) ≤ 255 := by exact_mod_cast hn
    omega
  exact ⟨hmain, by rw [hmain]; simp, fun x i j c hx => by
    unfold saveArray loadArray
    rw [hx]
    exact hmain⟩

/-- C7 witness: the round trip at sample 137. -/
theorem c7_color_round_trip_witness : saveLoadPixel 137 = (137 : ℤ) :=
  (c7_color_round_trip 137 (by norm_num)).1

/-- C10 counterexample: at the encoded value u = 0.04045 — inside [0, 1] —
the decoder takes the linear branch but the re-encoder takes the power
branch, and the compositions fail to be exact: if they were, the rational
(0.04045 / 12.92)^5 would equal (0.09545 / 1.055)^12, which exact
arithmetic refutes. -/
theorem c10_exact_inverse_counterexample :
    (0 : ℝ) ≤ 0.04045 ∧ (0.04045 : ℝ) ≤ 1 ∧
    gamma_forward (gamma_reverse 0.04045) ≠ 0.04045 := by
  refine ⟨by norm_num, by norm_num, ?_⟩
  have hrev : gamma_reverse 0.04045 = 0.04045 / 12.92 := by
    unfold gamma_reverse
    rw [if_pos (by norm_num : (0.04045 : ℝ) ≤ 0.04045)]
  rw [hrev]
  unfold gamma_forward
  rw [if_neg (by norm_num : ¬((0.04045 / 12.92 : ℝ) ≤ 0.0031308))]
  intro heq
  have h1 : ((0.04045 / 12.92 : ℝ)) ^ ((1 : ℝ) / 2.4) = 0.09545 / 1.055 := by
    linarith
  have hb : (0 : ℝ) ≤ 0.04045 / 12.92 := by norm_num
  have h2 : (0.04045 / 12.92 : ℝ) = (0.09545 / 1.055 : ℝ) ^ (2.4 : ℝ) := by
    calc (0.04045 / 12.92 : ℝ)
        = ((0.04045 / 12.92 : ℝ) ^ ((1 : ℝ) / 2.4)) ^ (2.4 : ℝ) := by
          rw [← Real.rpow_mul hb]
          norm_num
      _ = (0.09545 / 1.055 : ℝ) ^ (2.4 : ℝ) := by rw [h1]
  have hs : (0 : ℝ) ≤ 0.09545 / 1.055 := by norm_num
  have h3 : ((0.04045 / 12.92 : ℝ)) ^ (5 : ℕ) = (0.09545 / 1.055 : ℝ) ^ (12 : ℕ) := by
    rw [h2, ← Real.rpow_natCast ((0.09545 / 1.055 : ℝ) ^ (2.4 : ℝ)) 5,
      ← Real.rpow_mul hs, ← Real.rpow_natCast (0.09545 / 1.055 : ℝ) 12]
    norm_num
  have h4 : ((0.04045 / 12.92 : ℝ)) ^ (5 : ℕ) ≠ (0.09545 / 1.055 : ℝ) ^ (12 : ℕ) := by
    norm_num
  exact h4 h3

/-- C10 amended: gamma_forward and gamma_reverse are exact mutual inverses
wherever the two branch thresholds select corresponding branches — on the
all-linear regions u <= 0.0031308 (respectively u <= 12.92 * 0.0031308 =
0.040449936) and whenever both sides take the power branch — but not on all
of [0, 1]: the mismatch sliver (0.040449936, 0.04045] witnessed at
u = 0.04045 breaks exactness there. -/
theorem c10_branchwise_mutual_inverse :
    (∀ u : ℝ, u ≤ 0.0031308 → gamma_reverse (gamma_forward u) = u) ∧
    (∀ u : ℝ, 0.0031308 < u → 0.04045 < gamma_forward u →
      gamma_reverse (gamma_forward u) = u) ∧
    (∀ u : ℝ, u ≤ 0.040449936 → gamma_forward (gamma_reverse u) = u) ∧
    (∀ u : ℝ, 0.04045 < u → 0.0031308 < gamma_reverse u →
      gamma_forward (gamma_reverse u) = u) :=
  ⟨gamma_rf_lin, gamma_rf_pow, gamma_fr_lin, gamma_fr_pow⟩

/-- C10 witness: the four branch regimes at the concrete points 0 and 1. -/
theorem c10_branchwise_mutual_inverse_witness :
    gamma_reverse (gamma_forward 0) = 0 ∧ gamma_forward (gamma_reverse 0) = 0 ∧
    gamma_reverse (gamma_forward 1) = 1 ∧ gamma_forward (gamma_reverse 1) = 1 := by
  have hf1 : gamma_forward 1 = 1 := by
    unfold gamma_forward
    rw [if_neg (by norm_num : ¬((1 : ℝ) ≤ 0.0031308)), Real.one_rpow]
    norm_num
  have hr1 : gamma_reverse 1 = 1 := by
    unfold gamma_reverse
    rw [if_neg (by norm_num : ¬((1 : ℝ) ≤ 0.04045)),
      show ((1 : ℝ) + 0.055) / 1.055 = 1 by norm_num, Real.one_rpow]
  refine ⟨c10_branchwise_mutual_inverse.1 0 (by norm_num),
    c10_branchwise_mutual_inverse.2.2.1 0 (by norm_num),
    c10_branchwise_mutual_inverse.2.1 1 (by norm_num) (by rw [hf1]; norm_num),
    c10_branchwise_mutual_inverse.2.2.2 1 (by norm_num) (by rw [hr1]; norm_num)⟩

end ImageClaims

